import Mathlib

/-!
Verification development for the TJL Project Setup Tool
(`src/tjl-project.py`).

The program is a project scaffolder: it sanitizes a project name,
selects a template (basic / microservice / webapp / library) that yields
a directory list and a file map, materializes that tree on disk, and
bootstraps a git repository with a fixed command sequence.  This file
gives a shallow embedding of those parts:

* Python strings are modelled as lists of Unicode codepoints
  (`Str := List Nat`).  Character classes (`\w`, `\s`) are modelled over
  ASCII; the source relies only on ASCII inputs for the identifiers and
  paths in question.
* The filesystem is a pair of path lists (directories, and files with an
  executable-permission bit).  File contents are abstracted to the
  identity of the generator method that produced them, because no
  checked property depends on the generated text.
* Git subprocess invocations are modelled two ways over one shared
  command list: a state semantics (branch / tag bookkeeping) for runs in
  which every command succeeds, and an exit-code oracle semantics for
  failure propagation.
-/

namespace TJLProject

/-- Python strings as lists of Unicode codepoints. -/
abbrev Str := List Nat

/-- Embed a Lean string literal as a codepoint list. -/
def pstr (s : String) : Str := s.toList.map Char.toNat

/-! ## Name sanitizer (`ProjectSetup._sanitize_project_name`, lines 821-826)

```python
name = re.sub(r'[^\w\s-]', '', name).strip()
name = re.sub(r'[-\s]+', '-', name)
return name.lower()
```
-/

/-- Codepoints matched by `\s` (ASCII part): space, tab, newline,
vertical tab, form feed, carriage return. -/
def isPySpace (c : Nat) : Bool :=
  c = 32 || c = 9 || c = 10 || c = 11 || c = 12 || c = 13

/-- ASCII decimal digits. -/
def isDigitCp (c : Nat) : Bool := 48 ≤ c && c ≤ 57

/-- ASCII uppercase letters. -/
def isUpperCp (c : Nat) : Bool := 65 ≤ c && c ≤ 90

/-- ASCII lowercase letters. -/
def isLowerCp (c : Nat) : Bool := 97 ≤ c && c ≤ 122

/-- Codepoints matched by `\w` (ASCII part): letters, digits, underscore. -/
def isWordCp (c : Nat) : Bool :=
  isUpperCp c || isLowerCp c || isDigitCp c || c = 95

/-- Characters kept by `re.sub(r'[^\w\s-]', '', name)`: word characters,
whitespace, and the hyphen (codepoint 45). -/
def keepCp (c : Nat) : Bool := isWordCp c || isPySpace c || c = 45

/-- Characters matched by `[-\s]`. -/
def isDashSpace (c : Nat) : Bool := c = 45 || isPySpace c

/-- `str.lower` on one ASCII codepoint. -/
def lowerCp (c : Nat) : Nat := if 65 ≤ c ∧ c ≤ 90 then c + 32 else c

/-- `str.strip()`: drop leading and trailing whitespace. -/
def stripWs (l : Str) : Str :=
  ((l.dropWhile isPySpace).reverse.dropWhile isPySpace).reverse

/-- `re.sub(r'[-\s]+', '-', name)`: replace every maximal run of hyphens
and whitespace by a single hyphen. -/
def collapseRuns : Str → Str
  | [] => []
  | [c] => if isDashSpace c then [45] else [c]
  | c :: d :: rest =>
    if isDashSpace c then
      if isDashSpace d then collapseRuns (d :: rest)
      else 45 :: collapseRuns (d :: rest)
    else c :: collapseRuns (d :: rest)

/-- `ProjectSetup._sanitize_project_name`: strip characters outside
`[\w\s-]`, strip surrounding whitespace, collapse `[-\s]+` runs to a
single hyphen, lowercase. -/
def sanitizeName (s : Str) : Str :=
  (collapseRuns (stripWs (s.filter keepCp))).map lowerCp

/-! ## The validation pattern `^[a-z][a-z0-9-_]*$` (`re.match`, lines 834, 849) -/

/-- Characters allowed after the first one: `[a-z0-9-_]`. -/
def identTail (c : Nat) : Bool :=
  isLowerCp c || isDigitCp c || c = 45 || c = 95

/-- Full match of `[a-z][a-z0-9-_]*` against the whole string. -/
def identFull : Str → Bool
  | [] => false
  | c :: rest => isLowerCp c && rest.all identTail

/-- `re.match(r'^[a-z][a-z0-9-_]*$', s)` is a match: `$` also matches
just before a single trailing newline, which Python's `re` permits. -/
def pyIdentMatch (l : Str) : Bool :=
  identFull l || (decide (l ≠ []) && decide (l.getLast? = some 10) && identFull l.dropLast)

/-! ### Unicode extension of the sanitizer's character model

Python's `str.lower()` and `re`'s `\w` are defined over all of Unicode.
The definitions below extend the ASCII tables with exactly the
codepoints that decide sanitizer idempotence: U+0130 (`İ`, LATIN
CAPITAL LETTER I WITH DOT ABOVE), whose full lowercase mapping is the
two-codepoint sequence `i` + U+0307, and U+0307 (COMBINING DOT ABOVE),
which `\w` does not match.  On codepoints below 128 these definitions
agree exactly with the ASCII ones; no theorem exercises any other
codepoint. -/

/-- `str.lower()` of one codepoint, as a codepoint sequence: U+0130 maps
to `i` + U+0307; ASCII uppercase shifts by 32; everything else in the
modelled range is fixed. -/
def pyLowerChar (c : Nat) : Str :=
  if c = 304 then [105, 775]
  else if 65 ≤ c ∧ c ≤ 90 then [c + 32]
  else [c]

/-- `\w` over the modelled range: the ASCII word characters plus U+0130
(a letter); U+0307, a combining mark, is not a word character. -/
def isWordCpU (c : Nat) : Bool := isWordCp c || c = 304

/-- Characters kept by `re.sub(r'[^\w\s-]', '', name)` over the modelled
range. -/
def keepCpU (c : Nat) : Bool := isWordCpU c || isPySpace c || c = 45

/-- `ProjectSetup._sanitize_project_name` over the extended character
model: same three stages, with `str.lower()` as a one-to-many codepoint
mapping (as Python defines it). -/
def sanitizeNameU (s : Str) : Str :=
  (collapseRuns (stripWs (s.filter keepCpU))).flatMap pyLowerChar

/-! ## Template catalog (`BaseTemplate` and its subclasses)

File contents are abstracted to the identity of the `_get_*_content`
method named in each `get_files` dictionary: no checked claim depends on
the generated text, only on the paths, and on the fact that several of
the named methods are not defined anywhere in the source file.
-/

/-- The four template kinds of `ProjectSetup._get_template_instance`. -/
inductive TemplateKind
  | basic
  | microservice
  | webapp
  | library
deriving DecidableEq, Repr

/-- One constructor per `_get_*_content` method *named* in a `get_files`
dictionary of the source (whether or not the method is defined). -/
inductive ContentGen
  | readme | gitignore | editorconfig | switchEnv | deployScript
  | testScript | workflow | docsReadme | coreInit | utilsInit | conftest
  | dockerfile | dockerCompose | k8sDeployment | k8sService | terraform
  | healthRoute | loggingMiddleware | baseSchema | baseService
  | baseModel | requirements
  | packageJson | nextConfig | eslint | tailwindConfig | globalStyles
  | appTsx | layoutTsx | authHook | authContext
  | setupPy | pyprojectToml | manifestIn | sphinxConf | baseClass
  | exceptionsBase | benchmark
deriving DecidableEq, Repr

/-- Whether the method that the tag names is actually defined in the
source file.  `BaseTemplate` defines all eleven basic generators;
`MicroserviceTemplate` additionally defines only `_get_dockerfile_content`,
`_get_docker_compose_content`, `_get_k8s_deployment_content`,
`_get_health_route_content` and `_get_base_service_content`; none of the
webapp- or library-specific generators is defined anywhere. -/
def definedGen : ContentGen → Bool
  | .readme | .gitignore | .editorconfig | .switchEnv | .deployScript
  | .testScript | .workflow | .docsReadme | .coreInit | .utilsInit
  | .conftest => true
  | .dockerfile | .dockerCompose | .k8sDeployment | .healthRoute
  | .baseService => true
  | _ => false

/-- The Python method name of a generator tag. -/
def genPyName : ContentGen → String
  | .readme => "_get_readme_content"
  | .gitignore => "_get_gitignore_content"
  | .editorconfig => "_get_editorconfig_content"
  | .switchEnv => "_get_switch_env_content"
  | .deployScript => "_get_deploy_script_content"
  | .testScript => "_get_test_script_content"
  | .workflow => "_get_workflow_content"
  | .docsReadme => "_get_docs_readme_content"
  | .coreInit => "_get_core_init_content"
  | .utilsInit => "_get_utils_init_content"
  | .conftest => "_get_conftest_content"
  | .dockerfile => "_get_dockerfile_content"
  | .dockerCompose => "_get_docker_compose_content"
  | .k8sDeployment => "_get_k8s_deployment_content"
  | .k8sService => "_get_k8s_service_content"
  | .terraform => "_get_terraform_content"
  | .healthRoute => "_get_health_route_content"
  | .loggingMiddleware => "_get_logging_middleware_content"
  | .baseSchema => "_get_base_schema_content"
  | .baseService => "_get_base_service_content"
  | .baseModel => "_get_base_model_content"
  | .requirements => "_get_requirements_content"
  | .packageJson => "_get_package_json_content"
  | .nextConfig => "_get_next_config_content"
  | .eslint => "_get_eslint_content"
  | .tailwindConfig => "_get_tailwind_config_content"
  | .globalStyles => "_get_global_styles_content"
  | .appTsx => "_get_app_content"
  | .layoutTsx => "_get_layout_content"
  | .authHook => "_get_auth_hook_content"
  | .authContext => "_get_auth_context_content"
  | .setupPy => "_get_setup_content"
  | .pyprojectToml => "_get_pyproject_content"
  | .manifestIn => "_get_manifest_content"
  | .sphinxConf => "_get_sphinx_config_content"
  | .baseClass => "_get_base_class_content"
  | .exceptionsBase => "_get_exceptions_content"
  | .benchmark => "_get_benchmark_content"

/-- Python class name per template kind. -/
def className : TemplateKind → String
  | .basic => "BaseTemplate"
  | .microservice => "MicroserviceTemplate"
  | .webapp => "WebAppTemplate"
  | .library => "LibraryTemplate"

/-- The `AttributeError` message raised when an undefined generator
method is looked up (Python wraps both names in single quotes; the
quotes are omitted here). -/
def attrErrMsg (k : TemplateKind) (g : ContentGen) : Str :=
  pstr (className k) ++ pstr " object has no attribute " ++ pstr (genPyName g)

/-- `BaseTemplate.get_directories` (lines 103-120). -/
def basicDirList (envs : List Str) : List Str :=
  [[], pstr "config"]
    ++ envs.map (fun env => pstr "config/" ++ env)
    ++ [pstr "docs", pstr "docs/api", pstr "docs/setup", pstr "scripts",
        pstr "src", pstr "src/core", pstr "src/utils", pstr "tests",
        pstr "tests/unit", pstr "tests/integration",
        pstr ".github/workflows"]

/-- `BaseTemplate.get_files` (lines 122-136), paths with generator tags. -/
def basicFileEntries : List (Str × ContentGen) :=
  [(pstr "README.md", .readme),
   (pstr ".gitignore", .gitignore),
   (pstr ".editorconfig", .editorconfig),
   (pstr "scripts/switch_env.sh", .switchEnv),
   (pstr "scripts/deploy.sh", .deployScript),
   (pstr "scripts/run_tests.sh", .testScript),
   (pstr ".github/workflows/ci.yml", .workflow),
   (pstr "docs/README.md", .docsReadme),
   (pstr "src/core/__init__.py", .coreInit),
   (pstr "src/utils/__init__.py", .utilsInit),
   (pstr "tests/conftest.py", .conftest)]

/-- Extra directories of `MicroserviceTemplate.get_directories`. -/
def microExtraDirs : List Str :=
  [pstr "src/api", pstr "src/api/routes", pstr "src/api/middleware",
   pstr "src/api/schemas", pstr "src/services", pstr "src/models",
   pstr "deployment", pstr "deployment/kubernetes",
   pstr "deployment/docker", pstr "deployment/terraform",
   pstr "deployment/scripts"]

/-- Extra entries of `MicroserviceTemplate.get_files` (lines 1161-1177),
in dictionary-literal order. -/
def microExtraEntries : List (Str × ContentGen) :=
  [(pstr "Dockerfile", .dockerfile),
   (pstr "docker-compose.yml", .dockerCompose),
   (pstr "deployment/kubernetes/deployment.yml", .k8sDeployment),
   (pstr "deployment/kubernetes/service.yml", .k8sService),
   (pstr "deployment/terraform/main.tf", .terraform),
   (pstr "src/api/routes/health.py", .healthRoute),
   (pstr "src/api/middleware/logging.py", .loggingMiddleware),
   (pstr "src/api/schemas/base.py", .baseSchema),
   (pstr "src/services/base.py", .baseService),
   (pstr "src/models/base.py", .baseModel),
   (pstr "requirements.txt", .requirements)]

/-- Extra directories of `WebAppTemplate.get_directories`. -/
def webappExtraDirs : List Str :=
  [pstr "src/components", pstr "src/components/common",
   pstr "src/components/layout", pstr "src/components/features",
   pstr "src/pages", pstr "src/styles", pstr "src/hooks",
   pstr "src/context", pstr "src/utils", pstr "public",
   pstr "public/images", pstr "public/fonts"]

/-- Extra entries of `WebAppTemplate.get_files` (lines 1388-1402). -/
def webappExtraEntries : List (Str × ContentGen) :=
  [(pstr "package.json", .packageJson),
   (pstr "next.config.js", .nextConfig),
   (pstr ".eslintrc.js", .eslint),
   (pstr "tailwind.config.js", .tailwindConfig),
   (pstr "src/styles/globals.css", .globalStyles),
   (pstr "src/pages/_app.tsx", .appTsx),
   (pstr "src/components/layout/Layout.tsx", .layoutTsx),
   (pstr "src/hooks/useAuth.ts", .authHook),
   (pstr "src/context/AuthContext.tsx", .authContext)]

/-- Extra directories of `LibraryTemplate.get_directories`. -/
def libraryExtraDirs : List Str :=
  [pstr "src/core", pstr "src/utils", pstr "src/exceptions",
   pstr "src/interfaces", pstr "examples", pstr "examples/basic",
   pstr "examples/advanced", pstr "benchmarks", pstr "docs/api",
   pstr "docs/guides"]

/-- Extra entries of `LibraryTemplate.get_files` (lines 1423-1435). -/
def libraryExtraEntries : List (Str × ContentGen) :=
  [(pstr "setup.py", .setupPy),
   (pstr "pyproject.toml", .pyprojectToml),
   (pstr "MANIFEST.in", .manifestIn),
   (pstr "docs/conf.py", .sphinxConf),
   (pstr "src/core/base.py", .baseClass),
   (pstr "src/exceptions/base.py", .exceptionsBase),
   (pstr "benchmarks/benchmark.py", .benchmark)]

/-- `get_directories` per kind: each subclass returns
`super().get_directories()` plus its own list. -/
def getDirectories (k : TemplateKind) (envs : List Str) : List Str :=
  match k with
  | .basic => basicDirList envs
  | .microservice => basicDirList envs ++ microExtraDirs
  | .webapp => basicDirList envs ++ webappExtraDirs
  | .library => basicDirList envs ++ libraryExtraDirs

/-- The dictionary literal passed to `files.update(...)` per kind. -/
def extraEntries (k : TemplateKind) : List (Str × ContentGen) :=
  match k with
  | .basic => []
  | .microservice => microExtraEntries
  | .webapp => webappExtraEntries
  | .library => libraryExtraEntries

/-- Evaluate the values of a dictionary literal in order; looking up an
undefined method raises `AttributeError` at the first offender. -/
def evalEntries (k : TemplateKind) :
    List (Str × ContentGen) → Except Str (List (Str × ContentGen))
  | [] => .ok []
  | e :: rest =>
    if definedGen e.2 then (evalEntries k rest).map (e :: ·)
    else .error (attrErrMsg k e.2)

/-- Keys of an association-list dictionary. -/
def entryKeys (m : List (Str × ContentGen)) : List Str := m.map Prod.fst

/-- Python `dict.update`: overwrite values of existing keys in place,
append new keys in their own order. -/
def dictUpdate (base extra : List (Str × ContentGen)) :
    List (Str × ContentGen) :=
  base.map (fun kv =>
      match extra.lookup kv.1 with
      | some v => (kv.1, v)
      | none => kv)
    ++ extra.filter (fun kv => ¬ (entryKeys base).contains kv.1)

/-- `get_files` per kind: evaluate `super().get_files()`, then the
kind-specific dictionary literal, then `update`.  Returns the
`AttributeError` message if a named generator method does not exist. -/
def getFiles (k : TemplateKind) : Except Str (List (Str × ContentGen)) := do
  let base ← evalEntries k basicFileEntries
  let extra ← evalEntries k (extraEntries k)
  pure (dictUpdate base extra)

/-! ## Filesystem model

Paths are absolute strings (codepoint lists).  A file entry is a path
with its executable-permission bit (`true` iff mode `0o755` was set);
contents are not tracked.  `os.makedirs(..., exist_ok=True)` is
insert-if-absent (implicit creation of intermediate directories is
elided: no checked claim depends on implicitly created parents).
-/

/-- Directories plus files with an executable bit. -/
structure FS where
  dirs : List Str
  files : List (Str × Bool)
deriving DecidableEq, Repr

/-- Paths of the files of an `FS`. -/
def filePaths (fs : FS) : List Str := fs.files.map Prod.fst

/-- `os.path.exists`: true for directories and files alike. -/
def pathExists (fs : FS) (p : Str) : Bool :=
  fs.dirs.contains p || (filePaths fs).contains p

/-- `os.makedirs(p, exist_ok=True)`: create the directory if absent. -/
def addDir (p : Str) (fs : FS) : FS :=
  if fs.dirs.contains p then fs else { fs with dirs := fs.dirs ++ [p] }

/-- `Path(p).touch()`: create an empty file with default permissions if
absent; an existing file is left as it is. -/
def touchFile (p : Str) (fs : FS) : FS :=
  if (filePaths fs).contains p then fs
  else { fs with files := fs.files ++ [(p, false)] }

/-- `open(p, 'w').write(...)`: create the file with default permissions
if absent; overwriting an existing file keeps its permission bits (and
contents are not tracked). -/
def writeFile (p : Str) (fs : FS) : FS :=
  if (filePaths fs).contains p then fs
  else { fs with files := fs.files ++ [(p, false)] }

/-- `os.chmod(p, 0o755)`: set the executable bit of every entry at `p`. -/
def chmodExec (p : Str) (fs : FS) : FS :=
  { fs with files := fs.files.map (fun q => if q.1 = p then (q.1, true) else q) }

/-- `os.path.join(root, rel)` for a relative `rel`, normalized: joining
the empty component yields `root` itself (Python returns `root + '/'`,
which `os.makedirs` treats identically). -/
def joinRel (root rel : Str) : Str :=
  if rel = [] then root else root ++ 47 :: rel

/-- `os.path.dirname`: drop the last `/`-separated component. -/
def dirName (p : Str) : Str :=
  List.intercalate [47] ((p.splitOn 47).dropLast)

/-- Whether `p` is `root` itself or lies strictly under it. -/
def underPath (root p : Str) : Bool :=
  decide (p = root) || decide ((root ++ [47]) <+: p)

/-- `shutil.rmtree(root)`: remove `root` and everything under it. -/
def rmTree (root : Str) (fs : FS) : FS :=
  { dirs := fs.dirs.filter (fun d => ¬ underPath root d),
    files := fs.files.filter (fun f => ¬ underPath root f.1) }

/-- `file_path.endswith('.sh')`. -/
def shSuffix (p : Str) : Bool := decide (pstr ".sh" <:+ p)

/-- One iteration of the loop in `ProjectSetup.create_directory_structure`
(lines 889-894): `makedirs` the directory, then `touch` a `.gitkeep`
marker inside it unless it is the project root (`dir_path == ''`). -/
def dirStep (root : Str) (fs : FS) (d : Str) : FS :=
  let full := joinRel root d
  let fs := addDir full fs
  if d = [] then fs else touchFile (joinRel full (pstr ".gitkeep")) fs

/-- `ProjectSetup.create_directory_structure` (lines 883-894). -/
def createDirectoryStructure (root : Str) (dirList : List Str) (fs : FS) : FS :=
  dirList.foldl (dirStep root) fs

/-- One iteration of the loop in `ProjectSetup.create_files`
(lines 902-912): `makedirs` the parent, write the file, and `chmod 0o755`
when the (relative) path ends in `.sh`. -/
def fileStep (root : Str) (fs : FS) (e : Str × ContentGen) : FS :=
  let full := joinRel root e.1
  let fs := addDir (dirName full) fs
  let fs := writeFile full fs
  if shSuffix e.1 then chmodExec full fs else fs

/-- `ProjectSetup.create_files` (lines 896-912), applied to an already
evaluated file dictionary. -/
def createFilesFS (root : Str) (entries : List (Str × ContentGen)) (fs : FS) : FS :=
  entries.foldl (fileStep root) fs

/-- Remove duplicate list entries, keeping first occurrences. -/
def dedupFirst : List Str → List Str
  | [] => []
  | d :: rest => d :: dedupFirst (rest.filter (· ≠ d))
termination_by l => l.length
decreasing_by
  simp only [List.length_cons]
  exact Nat.lt_succ_of_le (List.length_filter_le _ rest)

/-! ## Git bootstrap (`ProjectSetup.setup_git`, lines 914-993)

The fixed command sequence is represented structurally; `renderCmd`
recovers the exact shell string the source interpolates.  Two semantics
share the sequence: `applyGit` is the branch/tag bookkeeping of a
successful command, and `runGitFS` threads an exit-code oracle (one
result per subprocess invocation, in order) plus the two file-writing
steps (`_setup_branch_protection`, `_setup_git_hooks`) that the source
interleaves into the sequence.
-/

/-- The git commands issued by `setup_git`. -/
inductive GitCmd
  | gitInit
  | config (key value : Str)
  | addAll
  | commit (msg : Str)
  | branchMove (name : Str)
  | checkoutNew (name base : Str)
  | checkout (name : Str)
  | branchDelete (name : Str)
  | tagAnnotated (name msg : Str)
deriving DecidableEq, Repr

/-- The exact command string the source passes to `subprocess.run`. -/
def renderCmd : GitCmd → Str
  | .gitInit => pstr "git init"
  | .config k v => pstr "git config --local " ++ k ++ pstr " " ++ v
  | .addAll => pstr "git add ."
  | .commit m => pstr "git commit -m " ++ [34] ++ m ++ [34]
  | .branchMove n => pstr "git branch -M " ++ n
  | .checkoutNew n b => pstr "git checkout -b " ++ n ++ pstr " " ++ b
  | .checkout n => pstr "git checkout " ++ n
  | .branchDelete n => pstr "git branch -D " ++ n
  | .tagAnnotated n m => pstr "git tag -a " ++ n ++ pstr " -m " ++ [34] ++ m ++ [34]

/-- Repository bookkeeping: branch list in creation order, the current
branch name (`HEAD`), and tags. -/
structure GitState where
  branches : List Str
  head : Str
  tags : List Str
deriving DecidableEq, Repr

/-- State before `git init` runs. -/
def gitState0 : GitState := { branches := [], head := pstr "master", tags := [] }

/-- Effect of one *successful* git command on the bookkeeping state.
`git init` leaves `HEAD` on an unborn default branch (its name is
irrelevant: the sequence renames it with `git branch -M main` after the
first commit); the first commit materializes the current branch. -/
def applyGit : GitCmd → GitState → GitState
  | .gitInit, _ => gitState0
  | .config _ _, st => st
  | .addAll, st => st
  | .commit _, st =>
    if st.branches.contains st.head then st
    else { st with branches := st.branches ++ [st.head] }
  | .branchMove n, st =>
    { st with
      branches := st.branches.map (fun b => if b = st.head then n else b),
      head := n }
  | .checkoutNew n _, st =>
    { st with
      branches := if st.branches.contains n then st.branches
                  else st.branches ++ [n],
      head := n }
  | .checkout n, st => { st with head := n }
  | .branchDelete n, st => { st with branches := st.branches.filter (· ≠ n) }
  | .tagAnnotated n _, st => { st with tags := st.tags ++ [n] }

/-- A step of `setup_git`: a git subprocess invocation, or one of the two
file-writing helpers it calls between invocations. -/
inductive GitStep
  | git (c : GitCmd)
  | protectionConfig
  | hooks
deriving DecidableEq, Repr

/-- The `git_configs` list (lines 924-930); `os.name == 'nt'` selects
`core.autocrlf=true`, otherwise `input`. -/
def gitConfigs (isNt : Bool) : List (Str × Str) :=
  [(pstr "core.autocrlf", if isNt then pstr "true" else pstr "input"),
   (pstr "core.eol", pstr "lf"),
   (pstr "branch.main.mergeoptions", pstr "--no-ff"),
   (pstr "pull.rebase", pstr "true"),
   (pstr "init.defaultBranch", pstr "main")]

/-- The commit message built at lines 938-942 (`ts` stands for
`datetime.now().strftime(...)`). -/
def commitMessage (ts template : Str) (envs : List Str) : Str :=
  pstr "Initial project setup with TJL Project Setup Tool" ++ [10, 10]
    ++ pstr "Created on: " ++ ts ++ [10]
    ++ pstr "Template: " ++ template ++ [10]
    ++ pstr "Environments: " ++ List.intercalate (pstr ", ") envs

/-- The full `setup_git` step sequence, in source order. -/
def setupGitSteps (envs : List Str) (isNt : Bool) (commitMsg : Str) : List GitStep :=
  [GitStep.git .gitInit]
    ++ (gitConfigs isNt).map (fun kv => GitStep.git (.config kv.1 kv.2))
    ++ [GitStep.git .addAll,
        GitStep.git (.commit commitMsg),
        GitStep.git (.branchMove (pstr "main")),
        GitStep.git (.checkoutNew (pstr "develop") (pstr "main"))]
    ++ (envs.filter (fun e => e ≠ pstr "local" && e ≠ pstr "dev")).map
         (fun env => GitStep.git (.checkoutNew env (pstr "develop")))
    ++ [GitStep.git (.checkoutNew (pstr "feature/example") (pstr "develop")),
        GitStep.git (.checkout (pstr "develop")),
        GitStep.git (.branchDelete (pstr "feature/example")),
        GitStep.git (.checkoutNew (pstr "release/0.1.0") (pstr "develop")),
        GitStep.git (.checkout (pstr "develop")),
        GitStep.git (.branchDelete (pstr "release/0.1.0")),
        GitStep.git (.checkoutNew (pstr "hotfix/example") (pstr "main")),
        GitStep.git (.checkout (pstr "main")),
        GitStep.git (.branchDelete (pstr "hotfix/example")),
        GitStep.protectionConfig,
        GitStep.hooks,
        GitStep.git (.checkout (pstr "main")),
        GitStep.git (.tagAnnotated (pstr "v0.1.0") (pstr "Initial project setup"))]

/-- Filesystem effect of the two non-subprocess steps:
`_setup_branch_protection` appends to `.git/config`, and
`_setup_git_hooks` writes two hook files and `chmod 0o755`s them. -/
def applyStepFS (root : Str) : GitStep → FS → FS
  | .git _, fs => fs
  | .protectionConfig, fs => touchFile (joinRel root (pstr ".git/config")) fs
  | .hooks, fs =>
    let pre := joinRel root (pstr ".git/hooks/pre-commit")
    let prep := joinRel root (pstr ".git/hooks/prepare-commit-msg")
    chmodExec prep (writeFile prep (chmodExec pre (writeFile pre fs)))

/-- Result of one subprocess invocation: exit code and captured stderr. -/
structure CmdRes where
  code : Nat
  stderr : Str
deriving DecidableEq, Repr

/-- The oracle of a run in which every git command succeeds. -/
def allOk : Nat → CmdRes := fun _ => { code := 0, stderr := [] }

/-- Run the step sequence.  `o` is the exit-code oracle, `k` counts the
git invocations already made.  Returns the steps actually executed and
either the final state or, mirroring `_run_git_command` (lines
1084-1100), a `GitError` message `"Git command failed: " + stderr`
together with the filesystem at the failure point; no step after a
failed command is executed. -/
def runGitFS :
    List GitStep → (Nat → CmdRes) → Nat → Str → GitState × FS →
    List GitStep × Except (Str × FS) (GitState × FS)
  | [], _, _, _, st => ([], .ok st)
  | .git c :: rest, o, k, root, st =>
    let r := o k
    if r.code = 0 then
      let out := runGitFS rest o (k + 1) root (applyGit c st.1, st.2)
      (.git c :: out.1, out.2)
    else ([.git c], .error (pstr "Git command failed: " ++ r.stderr, st.2))
  | .protectionConfig :: rest, o, k, root, st =>
    let out := runGitFS rest o k root (st.1, applyStepFS root .protectionConfig st.2)
    (.protectionConfig :: out.1, out.2)
  | .hooks :: rest, o, k, root, st =>
    let out := runGitFS rest o k root (st.1, applyStepFS root .hooks st.2)
    (.hooks :: out.1, out.2)

/-- Number of git subprocess invocations in a step list. -/
def countGit (steps : List GitStep) : Nat :=
  (steps.filter (fun s => match s with | .git _ => true | _ => false)).length

/-- The prefix of a step list up to and including its `i`-th (0-based)
git invocation. -/
def takeThroughGit : List GitStep → Nat → List GitStep
  | [], _ => []
  | .git c :: rest, n =>
    if n = 0 then [.git c] else .git c :: takeThroughGit rest (n - 1)
  | .protectionConfig :: rest, n => .protectionConfig :: takeThroughGit rest n
  | .hooks :: rest, n => .hooks :: takeThroughGit rest n

/-- Branch list of a successful run. -/
def finalBranches (r : List GitStep × Except (Str × FS) (GitState × FS)) :
    Option (List Str) :=
  match r.2 with
  | .ok st => some st.1.branches
  | .error _ => none

/-- Tag list of a successful run. -/
def finalTags (r : List GitStep × Except (Str × FS) (GitState × FS)) :
    Option (List Str) :=
  match r.2 with
  | .ok st => some st.1.tags
  | .error _ => none

/-! ## Orchestrator (`ProjectSetup.__init__`, `_validate_inputs`,
`setup_project`, lines 804-866 and 1102-1120) -/

/-- The exception kinds the orchestrator can raise or wrap.  `attrErr`
models Python's `AttributeError` from looking up an undefined template
method; `envError` models the `EnvironmentError` of a missing git
executable. -/
inductive PyErr
  | validation (msg : Str)
  | envError (msg : Str)
  | gitErr (msg : Str)
  | attrErr (msg : Str)
  | projectErr (msg : Str)
deriving DecidableEq, Repr

/-- Python `str(e)` of each modelled exception: its message. -/
def errStr : PyErr → Str
  | .validation m => m
  | .envError m => m
  | .gitErr m => m
  | .attrErr m => m
  | .projectErr m => m

/-- The `template_map` lookup of `_get_template_instance` (lines 868-881). -/
def templateOf (template : Str) : Option TemplateKind :=
  if template = pstr "basic" then some .basic
  else if template = pstr "microservice" then some .microservice
  else if template = pstr "webapp" then some .webapp
  else if template = pstr "library" then some .library
  else none

/-- `environments or ['local', 'dev', 'staging', 'prod']`: both `None`
and an empty list select the default. -/
def defaultEnvs (envsArg : List Str) : List Str :=
  if envsArg = [] then
    [pstr "local", pstr "dev", pstr "staging", pstr "prod"]
  else envsArg

/-- The fields of a validated `ProjectSetup` instance that the setup
steps read. -/
structure Params where
  name : Str
  basePath : Str
  projectPath : Str
  envs : List Str
  template : Str
  kind : TemplateKind
deriving DecidableEq, Repr

/-- `ProjectSetup.__init__` followed by `_validate_inputs`
(lines 804-866): sanitize the name, build the target path, resolve the
template class (an unknown template raises first, at line 817), then
validate name, base path, target nonexistence, environment names, and
git availability, in source order.  `basePath` is assumed given in
absolute form (`os.path.abspath` is the identity on it). -/
def initProjectSetup (rawName basePath : Str) (envs : List Str)
    (template : Str) (gitAvailable : Bool) (fs : FS) : Except PyErr Params :=
  let name := sanitizeName rawName
  let projectPath := joinRel basePath name
  match templateOf template with
  | none => .error (.validation (pstr "Unknown template type: " ++ template))
  | some kind =>
    if name = [] then
      .error (.validation (pstr "Project name cannot be empty"))
    else if ¬ pyIdentMatch name then
      .error (.validation (pstr "Project name must start with a letter and contain only lowercase letters, numbers, hyphens, and underscores"))
    else if ¬ pathExists fs basePath then
      .error (.validation (pstr "Base path does not exist: " ++ basePath))
    else if pathExists fs projectPath then
      .error (.validation (pstr "Project directory already exists: " ++ projectPath))
    else
      match envs.find? (fun e => ¬ pyIdentMatch e) with
      | some e =>
        .error (.validation (pstr "Invalid environment name: " ++ e
          ++ pstr ". Must contain only lowercase letters, numbers, hyphens, and underscores"))
      | none =>
        if gitAvailable then
          .ok { name := name, basePath := basePath,
                projectPath := projectPath, envs := envs,
                template := template, kind := kind }
        else .error (.envError (pstr "Git is not installed"))

/-- The body of the `try` block of `setup_project` (lines 1104-1109):
directory creation, file creation, git bootstrap, in order.  A failure
carries the exception and the filesystem at the failure point. -/
def tryBody (p : Params) (isNt : Bool) (ts : Str) (o : Nat → CmdRes)
    (fs : FS) : Except (PyErr × FS) FS :=
  let fs1 := createDirectoryStructure p.projectPath (getDirectories p.kind p.envs) fs
  match getFiles p.kind with
  | .error m => .error (.attrErr m, fs1)
  | .ok entries =>
    let fs2 := createFilesFS p.projectPath entries fs1
    let steps := setupGitSteps p.envs isNt (commitMessage ts p.template p.envs)
    match (runGitFS steps o 0 p.projectPath (gitState0, fs2)).2 with
    | .error (m, fs3) => .error (.gitErr m, fs3)
    | .ok st => .ok st.2

/-- `ProjectSetup.setup_project` (lines 1102-1120): run the three steps;
on any exception delete the project root if it exists and raise
`ProjectError('Project setup failed: ' + str(e))`. -/
def setupProjectModel (p : Params) (isNt : Bool) (ts : Str)
    (o : Nat → CmdRes) (fs : FS) : Except PyErr Unit × FS :=
  match tryBody p isNt ts o fs with
  | .ok fs2 => (.ok (), fs2)
  | .error (e, fs1) =>
    let fs2 := if pathExists fs1 p.projectPath then rmTree p.projectPath fs1 else fs1
    (.error (.projectErr (pstr "Project setup failed: " ++ errStr e)), fs2)

/-- End-to-end run: construct and validate a `ProjectSetup` (no
filesystem mutation), then `setup_project`. -/
def tjlRun (rawName basePath : Str) (envsArg : List Str) (template : Str)
    (gitAvailable isNt : Bool) (ts : Str) (o : Nat → CmdRes) (fs : FS) :
    Except PyErr Unit × FS :=
  match initProjectSetup rawName basePath (defaultEnvs envsArg) template gitAvailable fs with
  | .error e => (.error e, fs)
  | .ok p => setupProjectModel p isNt ts o fs

/-! ## Lemmas about the sanitizer -/

/-- No maximal-run structure left to collapse: no two adjacent
characters are both in `[-\s]`. -/
def noRun : Str → Bool
  | c :: d :: rest => !(isDashSpace c && isDashSpace d) && noRun (d :: rest)
  | _ => true

/-- The default environment list `['local', 'dev', 'staging', 'prod']`. -/
def defaultEnvList : List Str :=
  [pstr "local", pstr "dev", pstr "staging", pstr "prod"]

/-- The bootstrap step sequence for the default environments. -/
def demoSteps : List GitStep :=
  setupGitSteps defaultEnvList false
    (commitMessage (pstr "2025-01-01 00:00:00") (pstr "basic") defaultEnvList)

/-- A bootstrap run for the default environments in which every git
command succeeds. -/
def demoRun : List GitStep × Except (Str × FS) (GitState × FS) :=
  runGitFS demoSteps allOk 0 (pstr "/base/app")
    (gitState0, FS.mk [pstr "/base"] [])

/-- The on-disk effect of one directory-loop iteration is present:
the directory exists and, unless it is the root, so does its
`.gitkeep` marker. -/
def DirMade (root d : Str) (fs : FS) : Prop :=
  joinRel root d ∈ fs.dirs ∧
    (d = [] ∨ joinRel (joinRel root d) (pstr ".gitkeep") ∈ filePaths fs)

/-- The `GitError` message of a failed run, if any. -/
def errMsgOf (r : List GitStep × Except (Str × FS) (GitState × FS)) : Option Str :=
  match r.2 with
  | .ok _ => none
  | .error e => some e.1

/-- The exit-code oracle used by the concrete failing-bootstrap witness:
the third git invocation exits nonzero with stderr `boom`. -/
def failingOracle : Nat → CmdRes := fun j =>
  if j = 2 then { code := 1, stderr := pstr "boom" } else { code := 0, stderr := [] }

/-- Every file entry's executable bit is set exactly when its path ends
in `.sh`. -/
def ExecInv (fs : FS) : Prop :=
  ∀ p e, (p, e) ∈ fs.files → (e = true ↔ shSuffix p = true)

instance : DecidableEq (Except (PyErr × FS) FS) := fun a b =>
  match a, b with
  | .ok x, .ok y =>
    if h : x = y then .isTrue (by rw [h])
    else .isFalse (by intro hc; injection hc; contradiction)
  | .error x, .error y =>
    if h : x = y then .isTrue (by rw [h])
    else .isFalse (by intro hc; injection hc; contradiction)
  | .ok _, .error _ => .isFalse (fun hc => Except.noConfusion hc)
  | .error _, .ok _ => .isFalse (fun hc => Except.noConfusion hc)

instance : DecidableEq (Except PyErr Unit) := fun a b =>
  match a, b with
  | .ok x, .ok y =>
    if h : x = y then .isTrue (by rw [h])
    else .isFalse (by intro hc; injection hc; contradiction)
  | .error x, .error y =>
    if h : x = y then .isTrue (by rw [h])
    else .isFalse (by intro hc; injection hc; contradiction)
  | .ok _, .error _ => .isFalse (fun hc => Except.noConfusion hc)
  | .error _, .ok _ => .isFalse (fun hc => Except.noConfusion hc)

/-- Whether a run ended in a `ValidationError`. -/
def validationFailed (r : Except PyErr Unit × FS) : Bool :=
  match r.1 with
  | .error (.validation _) => true
  | _ => false

theorem lowerCp_idem (c : Nat) : lowerCp (lowerCp c) = lowerCp c := by
  unfold lowerCp
  split_ifs <;> omega

theorem isPySpace_lowerCp (c : Nat) : isPySpace (lowerCp c) = isPySpace c := by
  unfold lowerCp
  split_ifs with h
  · apply Bool.eq_iff_iff.mpr
    simp only [isPySpace, Bool.or_eq_true, decide_eq_true_eq]
    omega
  · rfl

theorem isDashSpace_lowerCp (c : Nat) : isDashSpace (lowerCp c) = isDashSpace c := by
  unfold lowerCp
  split_ifs with h
  · apply Bool.eq_iff_iff.mpr
    simp only [isDashSpace, isPySpace, Bool.or_eq_true, decide_eq_true_eq]
    omega
  · rfl

theorem identTail_lowerCp_of_word (c : Nat) (h : isWordCp c = true) :
    identTail (lowerCp c) = true := by
  unfold isWordCp isUpperCp isLowerCp isDigitCp at h
  simp only [Bool.or_eq_true, Bool.and_eq_true, decide_eq_true_eq] at h
  unfold lowerCp identTail isLowerCp isDigitCp
  split_ifs with hc <;>
    simp only [Bool.or_eq_true, Bool.and_eq_true, decide_eq_true_eq] <;> omega

theorem identTail_not_space (c : Nat) (h : identTail c = true) :
    isPySpace c = false := by
  unfold identTail isLowerCp isDigitCp at h
  simp only [Bool.or_eq_true, Bool.and_eq_true, decide_eq_true_eq] at h
  unfold isPySpace
  simp only [Bool.or_eq_false_iff, decide_eq_false_iff_not]
  omega

theorem keepCp_of_identTail (c : Nat) (h : identTail c = true) :
    keepCp c = true := by
  unfold identTail isLowerCp isDigitCp at h
  simp only [Bool.or_eq_true, Bool.and_eq_true, decide_eq_true_eq] at h
  unfold keepCp isWordCp isUpperCp isLowerCp isDigitCp
  simp only [Bool.or_eq_true, Bool.and_eq_true, decide_eq_true_eq]
  omega

theorem lowerCp_eq_self_of_identTail (c : Nat) (h : identTail c = true) :
    lowerCp c = c := by
  unfold identTail isLowerCp isDigitCp at h
  simp only [Bool.or_eq_true, Bool.and_eq_true, decide_eq_true_eq] at h
  unfold lowerCp
  split_ifs with hc <;> omega

theorem word_of_keep_not_dashSpace (c : Nat) (hk : keepCp c = true)
    (hd : isDashSpace c = false) : isWordCp c = true := by
  unfold keepCp at hk
  unfold isDashSpace at hd
  simp only [Bool.or_eq_true] at hk
  simp only [Bool.or_eq_false_iff, decide_eq_false_iff_not] at hd
  rcases hk with (hw | hs) | h45
  · exact hw
  · rw [hs] at hd; simp at hd
  · simp only [decide_eq_true_eq] at h45; omega

theorem collapseRuns_chars : ∀ (l : Str) (c : Nat), c ∈ collapseRuns l →
    c = 45 ∨ (c ∈ l ∧ isDashSpace c = false)
  | [], c, h => by simp [collapseRuns] at h
  | [d], c, h => by
    by_cases hd : isDashSpace d = true
    · simp [collapseRuns, hd] at h
      exact Or.inl h
    · simp only [Bool.not_eq_true] at hd
      simp [collapseRuns, hd] at h
      subst h
      exact Or.inr ⟨List.mem_singleton.mpr rfl, hd⟩
  | a :: b :: rest, c, h => by
    by_cases ha : isDashSpace a = true
    · by_cases hb : isDashSpace b = true
      · simp only [collapseRuns, ha, hb, if_true] at h
        rcases collapseRuns_chars (b :: rest) c h with h1 | ⟨h1, h2⟩
        · exact Or.inl h1
        · exact Or.inr ⟨List.mem_cons_of_mem a h1, h2⟩
      · simp only [Bool.not_eq_true] at hb
        simp only [collapseRuns, ha, hb, if_true, Bool.false_eq_true, if_false,
          List.mem_cons] at h
        rcases h with rfl | h
        · exact Or.inl rfl
        · rcases collapseRuns_chars (b :: rest) c h with h1 | ⟨h1, h2⟩
          · exact Or.inl h1
          · exact Or.inr ⟨List.mem_cons_of_mem a h1, h2⟩
    · simp only [Bool.not_eq_true] at ha
      simp only [collapseRuns, ha, Bool.false_eq_true, if_false, List.mem_cons] at h
      rcases h with rfl | h
      · exact Or.inr ⟨List.mem_cons_self c (b :: rest), ha⟩
      · rcases collapseRuns_chars (b :: rest) c h with h1 | ⟨h1, h2⟩
        · exact Or.inl h1
        · exact Or.inr ⟨List.mem_cons_of_mem a h1, h2⟩

theorem collapseRuns_cons_head : ∀ (d : Nat) (rest : Str), ∃ t,
    collapseRuns (d :: rest) = (if isDashSpace d then 45 else d) :: t
  | d, [] => by
    by_cases hd : isDashSpace d = true <;> simp [collapseRuns, hd]
  | d, e :: rest => by
    by_cases hd : isDashSpace d = true
    · by_cases he : isDashSpace e = true
      · obtain ⟨t, ht⟩ := collapseRuns_cons_head e rest
        refine ⟨t, ?_⟩
        simp only [collapseRuns, hd, he, if_true]
        rw [ht]
        simp [he]
      · exact ⟨collapseRuns (e :: rest), by simp [collapseRuns, hd, he]⟩
    · simp only [Bool.not_eq_true] at hd
      exact ⟨collapseRuns (e :: rest), by simp [collapseRuns, hd]⟩

theorem noRun_collapseRuns : ∀ l : Str, noRun (collapseRuns l) = true
  | [] => rfl
  | [c] => by by_cases hc : isDashSpace c = true <;> simp [collapseRuns, noRun, hc]
  | a :: b :: rest => by
    have ih := noRun_collapseRuns (b :: rest)
    by_cases ha : isDashSpace a = true
    · by_cases hb : isDashSpace b = true
      · simpa only [collapseRuns, ha, hb, if_true] using ih
      · simp only [Bool.not_eq_true] at hb
        obtain ⟨t, ht⟩ := collapseRuns_cons_head b rest
        rw [hb] at ht
        simp only [Bool.false_eq_true, if_false] at ht
        simp only [collapseRuns, ha, hb, if_true, Bool.false_eq_true, if_false, ht,
          noRun, Bool.and_eq_true, Bool.not_eq_true']
        rw [ht] at ih
        refine ⟨?_, ih⟩
        simp [hb]
    · simp only [Bool.not_eq_true] at ha
      obtain ⟨t, ht⟩ := collapseRuns_cons_head b rest
      simp only [collapseRuns, ha, Bool.false_eq_true, if_false, ht, noRun,
        Bool.and_eq_true, Bool.not_eq_true']
      rw [ht] at ih
      refine ⟨?_, ih⟩
      by_cases hb : isDashSpace b = true
      · simp [ha, hb]
      · simp only [Bool.not_eq_true] at hb
        simp [ha, hb]

theorem collapseRuns_fixed : ∀ l : Str, (∀ c ∈ l, isPySpace c = false) →
    noRun l = true → collapseRuns l = l
  | [], _, _ => rfl
  | [c], hs, _ => by
    by_cases hc : isDashSpace c = true
    · have : c = 45 := by
        unfold isDashSpace at hc
        simp only [Bool.or_eq_true, decide_eq_true_eq] at hc
        rcases hc with h | h
        · exact h
        · rw [hs c (List.mem_singleton.mpr rfl)] at h; cases h
      simp [collapseRuns, hc, this]
    · simp only [Bool.not_eq_true] at hc
      simp [collapseRuns, hc]
  | a :: b :: rest, hs, hr => by
    simp only [noRun, Bool.and_eq_true, Bool.not_eq_true'] at hr
    obtain ⟨hab, hrest⟩ := hr
    have ih := collapseRuns_fixed (b :: rest)
      (fun c hc => hs c (List.mem_cons_of_mem a hc)) hrest
    by_cases ha : isDashSpace a = true
    · have hb : isDashSpace b = false := by
        cases hdb : isDashSpace b
        · rfl
        · rw [ha, hdb] at hab; cases hab
      have ha45 : a = 45 := by
        unfold isDashSpace at ha
        simp only [Bool.or_eq_true, decide_eq_true_eq] at ha
        rcases ha with h | h
        · exact h
        · rw [hs a (List.mem_cons_self a _)] at h; cases h
      simp [collapseRuns, ha, hb, ih, ha45]
    · simp only [Bool.not_eq_true] at ha
      simp [collapseRuns, ha, ih]

theorem noRun_map_lowerCp : ∀ l : Str, noRun (l.map lowerCp) = noRun l
  | [] => rfl
  | [c] => rfl
  | a :: b :: rest => by
    have ih := noRun_map_lowerCp (b :: rest)
    simp only [List.map_cons] at ih ⊢
    simp only [noRun, isDashSpace_lowerCp, ih]

theorem stripWs_subset {l : Str} {c : Nat} (h : c ∈ stripWs l) : c ∈ l := by
  unfold stripWs at h
  rw [List.mem_reverse] at h
  have h2 := (List.dropWhile_suffix isPySpace).subset h
  rw [List.mem_reverse] at h2
  exact (List.dropWhile_suffix isPySpace).subset h2

theorem sanitizeName_chars (s : Str) : ∀ c ∈ sanitizeName s, identTail c = true := by
  intro c hc
  unfold sanitizeName at hc
  rw [List.mem_map] at hc
  obtain ⟨c', hc', rfl⟩ := hc
  rcases collapseRuns_chars _ c' hc' with rfl | ⟨h1, h2⟩
  · decide
  · have hk : keepCp c' = true := List.of_mem_filter (stripWs_subset h1)
    exact identTail_lowerCp_of_word c' (word_of_keep_not_dashSpace c' hk h2)

theorem sanitizeName_no_space (s : Str) : ∀ c ∈ sanitizeName s, isPySpace c = false :=
  fun c hc => identTail_not_space c (sanitizeName_chars s c hc)

theorem sanitizeName_noRun (s : Str) : noRun (sanitizeName s) = true := by
  unfold sanitizeName
  rw [noRun_map_lowerCp]
  exact noRun_collapseRuns _

theorem sanitizeName_map_lowerCp (s : Str) :
    (sanitizeName s).map lowerCp = sanitizeName s := by
  unfold sanitizeName
  rw [List.map_map]
  exact List.map_congr_left (fun c _ => lowerCp_idem c)

theorem dropWhile_of_none {p : Nat → Bool} {l : Str}
    (h : ∀ c ∈ l, p c = false) : l.dropWhile p = l := by
  cases l with
  | nil => rfl
  | cons a t => simp [List.dropWhile_cons, h a (List.mem_cons_self a t)]

theorem stripWs_fixed {l : Str} (h : ∀ c ∈ l, isPySpace c = false) :
    stripWs l = l := by
  unfold stripWs
  rw [dropWhile_of_none h]
  rw [dropWhile_of_none (fun c hc => h c (List.mem_reverse.mp hc))]
  exact List.reverse_reverse l

/-- C4: for every raw name accepted by validation, the sanitizer's
output is made of `[a-z0-9_-]` characters only, contains no whitespace,
has every `[-\s]` run collapsed to a single hyphen, is fixed under
lowercasing, matches `^[a-z][a-z0-9-_]*$` exactly when it fully matches
`[a-z][a-z0-9-_]*` (the `$`-before-trailing-newline case cannot arise),
and fully matches exactly when it is nonempty and starts with a
lowercase letter. -/
theorem sanitizer_output_shape (s : Str) :
    (∀ c ∈ sanitizeName s, identTail c = true) ∧
    (∀ c ∈ sanitizeName s, isPySpace c = false) ∧
    noRun (sanitizeName s) = true ∧
    (sanitizeName s).map lowerCp = sanitizeName s ∧
    pyIdentMatch (sanitizeName s) = identFull (sanitizeName s) ∧
    identFull (sanitizeName s) =
      (decide (sanitizeName s ≠ []) && isLowerCp ((sanitizeName s).headD 0)) := by
  refine ⟨sanitizeName_chars s, sanitizeName_no_space s, sanitizeName_noRun s,
    sanitizeName_map_lowerCp s, ?_, ?_⟩
  · unfold pyIdentMatch
    cases hr : sanitizeName s with
    | nil => simp
    | cons a t =>
      have hlast : (a :: t).getLast? ≠ some 10 := by
        intro hl
        have hmem : (10 : Nat) ∈ sanitizeName s := by
          rw [hr]; exact List.mem_of_mem_getLast? hl
        have := sanitizeName_no_space s 10 hmem
        simp [isPySpace] at this
      simp [hlast]
  · cases hr : sanitizeName s with
    | nil => simp [identFull]
    | cons a t =>
      have htail : t.all identTail = true := List.all_eq_true.mpr
        (fun c hc => sanitizeName_chars s c (by rw [hr]; exact List.mem_cons_of_mem a hc))
      simp [identFull, htail]

/-- Witness for `sanitizer_output_shape` at the concrete raw name
`"My Cool App"`, whose sanitized form is `"my-cool-app"`. -/
theorem sanitizer_output_shape_witness :
    sanitizeName (pstr "My Cool App") = pstr "my-cool-app" ∧
    (109 : Nat) ∈ sanitizeName (pstr "My Cool App") ∧
    identTail 109 = true ∧
    pyIdentMatch (sanitizeName (pstr "My Cool App")) =
      identFull (sanitizeName (pstr "My Cool App")) :=
  ⟨by decide, by decide,
   (sanitizer_output_shape (pstr "My Cool App")).1 109 (by decide),
   (sanitizer_output_shape (pstr "My Cool App")).2.2.2.2.1⟩

/-- The ASCII-model sanitizer is idempotent: sanitizing an already
sanitized name returns it unchanged (helper for the ASCII-restricted
idempotence of the full sanitizer). -/
theorem sanitizeName_ascii_model_idem (s : Str) :
    sanitizeName (sanitizeName s) = sanitizeName s := by
  have hchars := sanitizeName_chars s
  have hns := sanitizeName_no_space s
  have hnr := sanitizeName_noRun s
  have hmap := sanitizeName_map_lowerCp s
  generalize hr : sanitizeName s = r at *
  show (collapseRuns (stripWs (r.filter keepCp))).map lowerCp = r
  rw [List.filter_eq_self.mpr (fun c hc => keepCp_of_identTail c (hchars c hc))]
  rw [stripWs_fixed hns]
  rw [collapseRuns_fixed r hns hnr]
  exact hmap

theorem keepCpU_eq_keepCp_of_ascii (c : Nat) (h : c ≤ 127) :
    keepCpU c = keepCp c := by
  apply Bool.eq_iff_iff.mpr
  simp only [keepCpU, isWordCpU, keepCp, isWordCp, isUpperCp, isLowerCp,
    isDigitCp, isPySpace, Bool.or_eq_true, Bool.and_eq_true,
    decide_eq_true_eq]
  omega

theorem pyLowerChar_eq_singleton (c : Nat) (h : c ≤ 127) :
    pyLowerChar c = [lowerCp c] := by
  unfold pyLowerChar lowerCp
  rw [if_neg (by omega : ¬ c = 304)]
  split_ifs <;> rfl

theorem flatMap_pyLowerChar_eq_map :
    ∀ l : Str, (∀ c ∈ l, c ≤ 127) → l.flatMap pyLowerChar = l.map lowerCp
  | [], _ => rfl
  | a :: t, h => by
    rw [List.flatMap_cons, List.map_cons,
      pyLowerChar_eq_singleton a (h a (List.mem_cons_self a t)),
      flatMap_pyLowerChar_eq_map t (fun c hc => h c (List.mem_cons_of_mem a hc))]
    rfl

theorem sanitizeNameU_eq_of_ascii (s : Str) (h : ∀ c ∈ s, c ≤ 127) :
    sanitizeNameU s = sanitizeName s := by
  unfold sanitizeNameU sanitizeName
  rw [List.filter_congr (fun c hc => keepCpU_eq_keepCp_of_ascii c (h c hc))]
  apply flatMap_pyLowerChar_eq_map
  intro c hc
  rcases collapseRuns_chars _ c hc with rfl | ⟨h1, h2⟩
  · omega
  · exact h c (List.mem_of_mem_filter (stripWs_subset h1))

theorem sanitizeName_out_ascii (s : Str) : ∀ c ∈ sanitizeName s, c ≤ 127 := by
  intro c hc
  have h := sanitizeName_chars s c hc
  unfold identTail isLowerCp isDigitCp at h
  simp only [Bool.or_eq_true, Bool.and_eq_true, decide_eq_true_eq] at h
  omega

/-- C10 (counterexample): the sanitizer is not idempotent on the
program.  On input `İ` (U+0130), Python's full case mapping yields
`i` + U+0307; a second pass strips the combining mark (it is outside
`\w`), so sanitizing twice differs from sanitizing once — the sanitizer
is not the identity on its own image. -/
theorem sanitizer_not_idempotent_unicode :
    sanitizeNameU [304] = [105, 775] ∧
    sanitizeNameU (sanitizeNameU [304]) = [105] ∧
    sanitizeNameU (sanitizeNameU [304]) ≠ sanitizeNameU [304] := by decide

/-- C10 (amended): the sanitizer is idempotent on every ASCII input:
for every string of codepoints below 128,
`sanitize(sanitize(s)) = sanitize(s)`. -/
theorem sanitizer_idempotent_ascii (s : Str) (h : ∀ c ∈ s, c ≤ 127) :
    sanitizeNameU (sanitizeNameU s) = sanitizeNameU s := by
  rw [sanitizeNameU_eq_of_ascii s h,
    sanitizeNameU_eq_of_ascii (sanitizeName s) (sanitizeName_out_ascii s)]
  exact sanitizeName_ascii_model_idem s

/-- Witness for `sanitizer_idempotent_ascii` at the ASCII raw name
`"My Cool App"`. -/
theorem sanitizer_idempotent_ascii_witness :
    (∀ c ∈ pstr "My Cool App", c ≤ 127) ∧
    sanitizeNameU (sanitizeNameU (pstr "My Cool App")) =
      sanitizeNameU (pstr "My Cool App") :=
  ⟨by decide, sanitizer_idempotent_ascii (pstr "My Cool App") (by decide)⟩

/-- C1: every kind's directory list extends the basic one (each subclass
returns `super().get_directories()` plus extras), and the file half of
the claim fails at runtime: `get_files` of the microservice, webapp and
library templates raises `AttributeError` at the first kind-specific
entry whose `_get_*_content` method does not exist in the source, so
only the basic template ever produces a file map. -/
theorem templates_extend_basic_dirs_but_files_raise :
    ∀ (envs : List Str) (k : TemplateKind),
      (∀ d, d ∈ basicDirList envs → d ∈ getDirectories k envs) ∧
      getFiles .basic = .ok basicFileEntries ∧
      getFiles .microservice = .error (attrErrMsg .microservice .k8sService) ∧
      getFiles .webapp = .error (attrErrMsg .webapp .packageJson) ∧
      getFiles .library = .error (attrErrMsg .library .setupPy) := by
  intro envs k
  refine ⟨?_, rfl, rfl, rfl, rfl⟩
  intro d hd
  cases k with
  | basic => exact hd
  | microservice => exact List.mem_append_left _ hd
  | webapp => exact List.mem_append_left _ hd
  | library => exact List.mem_append_left _ hd

/-- Witness for `templates_extend_basic_dirs_but_files_raise`: with one
environment, `config` is a basic directory and is kept by the
microservice template, whose `get_files` raises. -/
theorem templates_extend_basic_witness :
    pstr "config" ∈ basicDirList [pstr "local"] ∧
    pstr "config" ∈ getDirectories .microservice [pstr "local"] ∧
    getFiles .microservice = .error (attrErrMsg .microservice .k8sService) :=
  ⟨by decide,
   (templates_extend_basic_dirs_but_files_raise [pstr "local"] .microservice).1
     (pstr "config") (by decide),
   (templates_extend_basic_dirs_but_files_raise [pstr "local"] .microservice).2.2.1⟩

/-- C2: for environments `['local', 'dev', 'staging', 'prod']`, a
successful bootstrap leaves exactly the branches `main`, `develop`,
`staging`, `prod` (in creation order), does not retain the
demonstrative `feature/example`, `release/0.1.0`, `hotfix/example`
branches, tags `v0.1.0`, and the sequence creates one branch from
`develop` for each environment other than `local` and `dev`. -/
theorem git_bootstrap_branch_topology :
    finalBranches demoRun =
      some [pstr "main", pstr "develop", pstr "staging", pstr "prod"] ∧
    pstr "feature/example" ∉ (finalBranches demoRun).getD [] ∧
    pstr "release/0.1.0" ∉ (finalBranches demoRun).getD [] ∧
    pstr "hotfix/example" ∉ (finalBranches demoRun).getD [] ∧
    finalTags demoRun = some [pstr "v0.1.0"] ∧
    GitStep.git (.checkoutNew (pstr "staging") (pstr "develop")) ∈ demoSteps ∧
    GitStep.git (.checkoutNew (pstr "prod") (pstr "develop")) ∈ demoSteps := by
  decide

/-! ## Lemmas about directory materialization -/

theorem addDir_self_mem (p : Str) (fs : FS) : p ∈ (addDir p fs).dirs := by
  unfold addDir
  split_ifs with h
  · exact List.mem_of_elem_eq_true h
  · simp

theorem addDir_mem_of (x p : Str) (fs : FS) (h : x ∈ fs.dirs) :
    x ∈ (addDir p fs).dirs := by
  unfold addDir
  split_ifs
  · exact h
  · simp [h]

theorem addDir_files (p : Str) (fs : FS) : (addDir p fs).files = fs.files := by
  unfold addDir
  split_ifs <;> rfl

theorem addDir_noop (p : Str) (fs : FS) (h : p ∈ fs.dirs) : addDir p fs = fs := by
  unfold addDir
  rw [if_pos (List.elem_eq_true_of_mem h)]

theorem touchFile_self_mem (p : Str) (fs : FS) : p ∈ filePaths (touchFile p fs) := by
  unfold touchFile
  split_ifs with h
  · exact List.mem_of_elem_eq_true h
  · simp [filePaths]

theorem touchFile_mem_of (x p : Str) (fs : FS) (h : x ∈ filePaths fs) :
    x ∈ filePaths (touchFile p fs) := by
  unfold touchFile
  split_ifs
  · exact h
  · simp only [filePaths, List.map_append]
    exact List.mem_append_left _ h

theorem touchFile_dirs (p : Str) (fs : FS) : (touchFile p fs).dirs = fs.dirs := by
  unfold touchFile
  split_ifs <;> rfl

theorem touchFile_noop (p : Str) (fs : FS) (h : p ∈ filePaths fs) :
    touchFile p fs = fs := by
  unfold touchFile
  rw [if_pos (List.elem_eq_true_of_mem h)]

theorem filePaths_addDir (p : Str) (fs : FS) :
    filePaths (addDir p fs) = filePaths fs := by
  unfold filePaths
  rw [addDir_files]

theorem dirStep_establishes (root d : Str) (fs : FS) :
    DirMade root d (dirStep root fs d) := by
  unfold dirStep DirMade
  by_cases hd : d = []
  · rw [if_pos hd]
    exact ⟨addDir_self_mem _ fs, Or.inl hd⟩
  · rw [if_neg hd]
    refine ⟨?_, Or.inr (touchFile_self_mem _ _)⟩
    rw [touchFile_dirs]
    exact addDir_self_mem _ fs

theorem dirStep_preserves (root d' : Str) (fs : FS) (d : Str)
    (h : DirMade root d' fs) : DirMade root d' (dirStep root fs d) := by
  obtain ⟨h1, h2⟩ := h
  unfold dirStep
  by_cases hd : d = []
  · rw [if_pos hd]
    refine ⟨addDir_mem_of _ _ _ h1, ?_⟩
    rcases h2 with h2 | h2
    · exact Or.inl h2
    · refine Or.inr ?_
      rw [filePaths_addDir]
      exact h2
  · rw [if_neg hd]
    constructor
    · rw [touchFile_dirs]
      exact addDir_mem_of _ _ _ h1
    · rcases h2 with h2 | h2
      · exact Or.inl h2
      · refine Or.inr (touchFile_mem_of _ _ _ ?_)
        rw [filePaths_addDir]
        exact h2

theorem dirStep_noop (root d : Str) (fs : FS) (h : DirMade root d fs) :
    dirStep root fs d = fs := by
  obtain ⟨h1, h2⟩ := h
  unfold dirStep
  by_cases hd : d = []
  · rw [if_pos hd]
    exact addDir_noop _ fs h1
  · rw [if_neg hd]
    rcases h2 with h2 | h2
    · exact absurd h2 hd
    · rw [addDir_noop _ fs h1]
      exact touchFile_noop _ fs h2

theorem createDirs_cons (root d : Str) (l : List Str) (fs : FS) :
    createDirectoryStructure root (d :: l) fs =
      createDirectoryStructure root l (dirStep root fs d) := rfl

theorem createDirs_preserves (root d' : Str) :
    ∀ (l : List Str) (fs : FS), DirMade root d' fs →
      DirMade root d' (createDirectoryStructure root l fs)
  | [], fs, h => h
  | d :: l, fs, h => by
    rw [createDirs_cons]
    exact createDirs_preserves root d' l _ (dirStep_preserves root d' fs d h)

theorem createDirs_establishes (root : Str) :
    ∀ (l : List Str) (fs : FS) (d : Str), d ∈ l →
      DirMade root d (createDirectoryStructure root l fs)
  | e :: l, fs, d, hd => by
    rw [createDirs_cons]
    rcases List.mem_cons.mp hd with rfl | hd
    · exact createDirs_preserves root d l _ (dirStep_establishes root d fs)
    · exact createDirs_establishes root l _ d hd

theorem createDirs_noop (root : Str) :
    ∀ (l : List Str) (fs : FS), (∀ d ∈ l, DirMade root d fs) →
      createDirectoryStructure root l fs = fs
  | [], _, _ => rfl
  | d :: l, fs, h => by
    rw [createDirs_cons, dirStep_noop root d fs (h d (List.mem_cons_self d l))]
    exact createDirs_noop root l fs (fun e he => h e (List.mem_cons_of_mem d he))

theorem createDirs_filter_ne (root d : Str) :
    ∀ (l : List Str) (fs : FS), DirMade root d fs →
      createDirectoryStructure root (l.filter (· ≠ d)) fs =
        createDirectoryStructure root l fs
  | [], _, _ => rfl
  | e :: l, fs, h => by
    by_cases he : e = d
    · subst he
      rw [List.filter_cons_of_neg (by simp)]
      rw [createDirs_cons, dirStep_noop root e fs h]
      exact createDirs_filter_ne root e l fs h
    · rw [List.filter_cons_of_pos (by simp [he])]
      rw [createDirs_cons, createDirs_cons]
      exact createDirs_filter_ne root d l _ (dirStep_preserves root d fs e h)

theorem createDirs_dedupFirst (root : Str) :
    ∀ (l : List Str) (fs : FS),
      createDirectoryStructure root (dedupFirst l) fs =
        createDirectoryStructure root l fs
  | [], _ => by rw [dedupFirst]
  | d :: l, fs => by
    show createDirectoryStructure root (dedupFirst (d :: l)) fs = _
    rw [dedupFirst, createDirs_cons, createDirs_cons]
    rw [createDirs_dedupFirst root (l.filter (· ≠ d)) (dirStep root fs d)]
    exact createDirs_filter_ne root d l _ (dirStep_establishes root d fs)
termination_by l => l.length
decreasing_by
  simp only [List.length_cons]
  exact Nat.lt_succ_of_le (List.length_filter_le _ l)

/-- C9: directory materialization is idempotent.  The model of
`os.makedirs(..., exist_ok=True)` plus `Path.touch()` is total (no error
is possible), creating the same directory list twice equals creating it
once, and a list with duplicate entries produces exactly the tree of the
deduplicated list. -/
theorem directory_creation_idempotent (root : Str) (dirList : List Str) (fs : FS) :
    createDirectoryStructure root dirList
        (createDirectoryStructure root dirList fs) =
      createDirectoryStructure root dirList fs ∧
    createDirectoryStructure root (dedupFirst dirList) fs =
      createDirectoryStructure root dirList fs :=
  ⟨createDirs_noop root dirList _
     (fun d hd => createDirs_establishes root dirList fs d hd),
   createDirs_dedupFirst root dirList fs⟩

/-! ## Lemmas about the git runner -/

theorem runGitFS_git_ok {o : Nat → CmdRes} {k : Nat} (h : (o k).code = 0)
    (c : GitCmd) (rest : List GitStep) (root : Str) (st : GitState × FS) :
    runGitFS (.git c :: rest) o k root st =
      (.git c :: (runGitFS rest o (k + 1) root (applyGit c st.1, st.2)).1,
       (runGitFS rest o (k + 1) root (applyGit c st.1, st.2)).2) := by
  simp [runGitFS, h]

theorem runGitFS_git_fail {o : Nat → CmdRes} {k : Nat} (h : (o k).code ≠ 0)
    (c : GitCmd) (rest : List GitStep) (root : Str) (st : GitState × FS) :
    runGitFS (.git c :: rest) o k root st =
      ([.git c], .error (pstr "Git command failed: " ++ (o k).stderr, st.2)) := by
  simp [runGitFS, h]

theorem runGitFS_protection (o : Nat → CmdRes) (k : Nat)
    (rest : List GitStep) (root : Str) (st : GitState × FS) :
    runGitFS (.protectionConfig :: rest) o k root st =
      (.protectionConfig ::
         (runGitFS rest o k root (st.1, applyStepFS root .protectionConfig st.2)).1,
       (runGitFS rest o k root (st.1, applyStepFS root .protectionConfig st.2)).2) := by
  simp [runGitFS]

theorem runGitFS_hooks (o : Nat → CmdRes) (k : Nat)
    (rest : List GitStep) (root : Str) (st : GitState × FS) :
    runGitFS (.hooks :: rest) o k root st =
      (.hooks :: (runGitFS rest o k root (st.1, applyStepFS root .hooks st.2)).1,
       (runGitFS rest o k root (st.1, applyStepFS root .hooks st.2)).2) := by
  simp [runGitFS]

theorem countGit_git_cons (c : GitCmd) (rest : List GitStep) :
    countGit (.git c :: rest) = countGit rest + 1 := by
  simp [countGit, List.filter_cons]

theorem countGit_protection_cons (rest : List GitStep) :
    countGit (.protectionConfig :: rest) = countGit rest := by
  simp [countGit, List.filter_cons]

theorem countGit_hooks_cons (rest : List GitStep) :
    countGit (.hooks :: rest) = countGit rest := by
  simp [countGit, List.filter_cons]

theorem runGitFS_abort :
    ∀ (steps : List GitStep) (o : Nat → CmdRes) (k i : Nat) (root : Str)
      (st : GitState × FS),
      (∀ j, j < i → (o (k + j)).code = 0) → (o (k + i)).code ≠ 0 →
      i < countGit steps →
      (runGitFS steps o k root st).1 = takeThroughGit steps i ∧
      errMsgOf (runGitFS steps o k root st) =
        some (pstr "Git command failed: " ++ (o (k + i)).stderr)
  | [], o, k, i, root, st, _, _, hcnt => by
    simp [countGit] at hcnt
  | .git c :: rest, o, k, i, root, st, hpre, hfail, hcnt => by
    cases i with
    | zero =>
      have h0 : (o k).code ≠ 0 := by simpa using hfail
      rw [runGitFS_git_fail h0]
      unfold takeThroughGit errMsgOf
      simp
    | succ i' =>
      have h0 : (o k).code = 0 := by simpa using hpre 0 (Nat.succ_pos i')
      have hpre' : ∀ j, j < i' → (o (k + 1 + j)).code = 0 := fun j hj => by
        have := hpre (j + 1) (by omega)
        rwa [show k + (j + 1) = k + 1 + j by omega] at this
      have hfail' : (o (k + 1 + i')).code ≠ 0 := by
        rwa [show k + (i' + 1) = k + 1 + i' by omega] at hfail
      have hcnt' : i' < countGit rest := by
        rw [countGit_git_cons] at hcnt
        omega
      obtain ⟨h1, h2⟩ := runGitFS_abort rest o (k + 1) i' root
        (applyGit c st.1, st.2) hpre' hfail' hcnt'
      rw [runGitFS_git_ok h0]
      refine ⟨?_, ?_⟩
      · unfold takeThroughGit
        simp only [Nat.succ_ne_zero, if_false, Nat.add_sub_cancel]
        rw [h1]
      · unfold errMsgOf at h2 ⊢
        rw [show k + (i' + 1) = k + 1 + i' by omega]
        exact h2
  | .protectionConfig :: rest, o, k, i, root, st, hpre, hfail, hcnt => by
    have hcnt' : i < countGit rest := by rwa [countGit_protection_cons] at hcnt
    obtain ⟨h1, h2⟩ := runGitFS_abort rest o k i root
      (st.1, applyStepFS root .protectionConfig st.2) hpre hfail hcnt'
    rw [runGitFS_protection]
    refine ⟨?_, ?_⟩
    · unfold takeThroughGit
      rw [h1]
    · unfold errMsgOf at h2 ⊢
      exact h2
  | .hooks :: rest, o, k, i, root, st, hpre, hfail, hcnt => by
    have hcnt' : i < countGit rest := by rwa [countGit_hooks_cons] at hcnt
    obtain ⟨h1, h2⟩ := runGitFS_abort rest o k i root
      (st.1, applyStepFS root .hooks st.2) hpre hfail hcnt'
    rw [runGitFS_hooks]
    refine ⟨?_, ?_⟩
    · unfold takeThroughGit
      rw [h1]
    · unfold errMsgOf at h2 ⊢
      exact h2

/-- C8: in the bootstrap sequence, if the first `i` git invocations exit
zero and invocation `i` exits nonzero, the run stops right after that
invocation (the executed prefix is the sequence up to and including the
`i`-th git command) and raises a `GitError` whose message is
`"Git command failed: "` followed by the captured stderr. -/
theorem git_failure_aborts_with_stderr (envs : List Str) (isNt : Bool)
    (msg root : Str) (st : GitState × FS) (o : Nat → CmdRes) (i : Nat)
    (hpre : ∀ j, j < i → (o j).code = 0) (hfail : (o i).code ≠ 0)
    (hcnt : i < countGit (setupGitSteps envs isNt msg)) :
    (runGitFS (setupGitSteps envs isNt msg) o 0 root st).1 =
      takeThroughGit (setupGitSteps envs isNt msg) i ∧
    errMsgOf (runGitFS (setupGitSteps envs isNt msg) o 0 root st) =
      some (pstr "Git command failed: " ++ (o i).stderr) := by
  have h := runGitFS_abort (setupGitSteps envs isNt msg) o 0 i root st
    (fun j hj => by simpa using hpre j hj) (by simpa using hfail) hcnt
  simpa using h

/-- Witness for `git_failure_aborts_with_stderr`: with environment list
`['local']`, the third git invocation (`git config --local core.eol lf`)
fails with stderr `boom`; the run executes exactly the first three git
commands and reports `Git command failed: boom`. -/
theorem git_failure_aborts_witness :
    (∀ j, j < 2 → (failingOracle j).code = 0) ∧
    (failingOracle 2).code ≠ 0 ∧
    2 < countGit (setupGitSteps [pstr "local"] false []) ∧
    ((runGitFS (setupGitSteps [pstr "local"] false []) failingOracle 0 (pstr "/r")
        (gitState0, FS.mk [] [])).1 =
       takeThroughGit (setupGitSteps [pstr "local"] false []) 2 ∧
     errMsgOf (runGitFS (setupGitSteps [pstr "local"] false []) failingOracle 0 (pstr "/r")
        (gitState0, FS.mk [] [])) =
       some (pstr "Git command failed: " ++ (failingOracle 2).stderr)) :=
  ⟨by decide, by decide, by decide,
   git_failure_aborts_with_stderr [pstr "local"] false [] (pstr "/r")
     (gitState0, FS.mk [] []) failingOracle 2 (by decide) (by decide) (by decide)⟩

/-! ## Lemmas about paths, suffixes, and file permissions -/

theorem suffix_append_iff_of_le {p t : Str} (s : Str) (h : p.length ≤ t.length) :
    p <:+ s ++ t ↔ p <:+ t := by
  constructor
  · rintro ⟨u, hu⟩
    have hlen : s.length ≤ u.length := by
      have hl := congrArg List.length hu
      simp only [List.length_append] at hl
      omega
    have hs : u.take s.length = s := by
      have h1 : (u ++ p).take s.length = u.take s.length :=
        List.take_append_of_le_length hlen
      have h2 : (s ++ t).take s.length = s := by
        rw [List.take_append_of_le_length (le_refl _), List.take_length]
      rw [hu, h2] at h1
      exact h1.symm
    refine ⟨u.drop s.length, ?_⟩
    have hu2 : (u.take s.length ++ u.drop s.length) ++ p = s ++ t := by
      rw [List.take_append_drop]; exact hu
    rw [hs, List.append_assoc] at hu2
    exact List.append_cancel_left hu2
  · intro hp
    exact hp.trans (List.suffix_append s t)

theorem joinRel_cons (root rel : Str) (h : rel ≠ []) :
    joinRel root rel = root ++ 47 :: rel := by
  unfold joinRel
  rw [if_neg h]

theorem joinRel_inj (root : Str) {a b : Str} (h : joinRel root a = joinRel root b) :
    a = b := by
  unfold joinRel at h
  by_cases ha : a = [] <;> by_cases hb : b = []
  · rw [ha, hb]
  · rw [if_pos ha, if_neg hb] at h
    have hl := congrArg List.length h
    simp only [List.length_append, List.length_cons] at hl
    omega
  · rw [if_neg ha, if_pos hb] at h
    have hl := congrArg List.length h
    simp only [List.length_append, List.length_cons] at hl
    omega
  · rw [if_neg ha, if_neg hb] at h
    have h2 := List.append_cancel_left h
    injection h2

theorem shSuffix_joinRel (root rel : Str) (h : 3 ≤ rel.length) :
    shSuffix (joinRel root rel) = shSuffix rel := by
  have hne : rel ≠ [] := by
    intro he
    rw [he] at h
    simp at h
  unfold shSuffix
  rw [joinRel_cons root rel hne]
  apply Bool.eq_iff_iff.mpr
  simp only [decide_eq_true_eq]
  have hassoc : root ++ 47 :: rel = (root ++ [47]) ++ rel := by
    rw [List.append_assoc]
    rfl
  rw [hassoc]
  exact suffix_append_iff_of_le (root ++ [47]) (by
    have : (pstr ".sh").length = 3 := by decide
    omega)

theorem shSuffix_gitkeep (x : Str) :
    shSuffix (joinRel x (pstr ".gitkeep")) = false := by
  unfold shSuffix
  rw [joinRel_cons x _ (by decide)]
  rw [decide_eq_false_iff_not]
  intro hsuf
  have hassoc : x ++ 47 :: pstr ".gitkeep" = (x ++ [47]) ++ pstr ".gitkeep" := by
    rw [List.append_assoc]
    rfl
  rw [hassoc] at hsuf
  have := (suffix_append_iff_of_le (x ++ [47]) (by decide)).mp hsuf
  exact absurd this (by decide)

theorem gitkeep_root_ne_dir (root d : Str) (hd : d ≠ []) :
    joinRel (joinRel root d) (pstr ".gitkeep") ≠ joinRel root (pstr ".gitkeep") := by
  intro h
  rw [joinRel_cons _ _ (by decide : (pstr ".gitkeep") ≠ []),
      joinRel_cons _ _ (by decide : (pstr ".gitkeep") ≠ []),
      joinRel_cons root d hd, List.append_assoc] at h
  have h2 := List.append_cancel_left h
  have hl := congrArg List.length h2
  simp only [List.length_cons, List.length_append] at hl
  omega

theorem ExecInv_addDir (p : Str) (fs : FS) (h : ExecInv fs) :
    ExecInv (addDir p fs) := by
  intro q e hq
  rw [addDir_files] at hq
  exact h q e hq

theorem ExecInv_touchFile (p : Str) (fs : FS) (h : ExecInv fs)
    (hp : shSuffix p = false) : ExecInv (touchFile p fs) := by
  intro q e hq
  unfold touchFile at hq
  split_ifs at hq
  · exact h q e hq
  · rcases List.mem_append.mp hq with hq | hq
    · exact h q e hq
    · rcases List.mem_singleton.mp hq with hq2
      injection hq2 with hq3 hq4
      subst hq3
      subst hq4
      simp [hp]

theorem ExecInv_writeFile (p : Str) (fs : FS) (h : ExecInv fs)
    (hp : shSuffix p = false) : ExecInv (writeFile p fs) :=
  ExecInv_touchFile p fs h hp

theorem ExecInv_write_chmod (p : Str) (fs : FS) (h : ExecInv fs)
    (hp : shSuffix p = true) : ExecInv (chmodExec p (writeFile p fs)) := by
  intro q e hq
  unfold chmodExec at hq
  simp only [List.mem_map] at hq
  obtain ⟨⟨a1, a2⟩, ha, hfa⟩ := hq
  dsimp only at hfa
  by_cases hap : a1 = p
  · rw [if_pos hap] at hfa
    injection hfa with h1 h2
    subst h1
    subst h2
    rw [hap, hp]
  · rw [if_neg hap] at hfa
    injection hfa with h1 h2
    subst h1
    subst h2
    unfold writeFile at ha
    split_ifs at ha
    · exact h a1 a2 ha
    · rcases List.mem_append.mp ha with ha | ha
      · exact h a1 a2 ha
      · rcases List.mem_singleton.mp ha with ha2
        injection ha2 with hb1 hb2
        exact absurd hb1 hap

theorem ExecInv_dirStep (root d : Str) (fs : FS) (h : ExecInv fs) :
    ExecInv (dirStep root fs d) := by
  unfold dirStep
  by_cases hd : d = []
  · rw [if_pos hd]
    exact ExecInv_addDir _ fs h
  · rw [if_neg hd]
    exact ExecInv_touchFile _ _ (ExecInv_addDir _ fs h) (shSuffix_gitkeep _)

theorem ExecInv_fileStep (root : Str) (e : Str × ContentGen) (fs : FS)
    (h : ExecInv fs) (hlen : 3 ≤ e.1.length) : ExecInv (fileStep root fs e) := by
  unfold fileStep
  have hinv := ExecInv_addDir (dirName (joinRel root e.1)) fs h
  by_cases hsh : shSuffix e.1 = true
  · rw [if_pos hsh]
    exact ExecInv_write_chmod _ _ hinv ((shSuffix_joinRel root e.1 hlen).trans hsh)
  · rw [if_neg hsh]
    refine ExecInv_writeFile _ _ hinv ?_
    rw [shSuffix_joinRel root e.1 hlen]
    exact Bool.not_eq_true _ ▸ hsh

theorem ExecInv_createDirs (root : Str) :
    ∀ (l : List Str) (fs : FS), ExecInv fs →
      ExecInv (createDirectoryStructure root l fs)
  | [], _, h => h
  | d :: l, fs, h => by
    rw [createDirs_cons]
    exact ExecInv_createDirs root l _ (ExecInv_dirStep root d fs h)

theorem createFiles_cons (root : Str) (e : Str × ContentGen)
    (entries : List (Str × ContentGen)) (fs : FS) :
    createFilesFS root (e :: entries) fs =
      createFilesFS root entries (fileStep root fs e) := rfl

theorem ExecInv_createFiles (root : Str) :
    ∀ (entries : List (Str × ContentGen)) (fs : FS), ExecInv fs →
      (∀ e ∈ entries, 3 ≤ e.1.length) →
      ExecInv (createFilesFS root entries fs)
  | [], _, h, _ => h
  | e :: entries, fs, h, hlen => by
    rw [createFiles_cons]
    exact ExecInv_createFiles root entries _
      (ExecInv_fileStep root e fs h (hlen e (List.mem_cons_self e entries)))
      (fun x hx => hlen x (List.mem_cons_of_mem e hx))

theorem writeFile_eq_touchFile (p : Str) (fs : FS) :
    writeFile p fs = touchFile p fs := rfl

theorem touchFile_paths_subset {q p : Str} {fs : FS}
    (h : q ∈ filePaths (touchFile p fs)) : q = p ∨ q ∈ filePaths fs := by
  unfold touchFile at h
  split_ifs at h
  · exact Or.inr h
  · unfold filePaths at h
    rw [List.map_append] at h
    rcases List.mem_append.mp h with h | h
    · exact Or.inr h
    · rcases List.mem_singleton.mp h with h2
      exact Or.inl h2

theorem filePaths_chmod (p : Str) (fs : FS) :
    filePaths (chmodExec p fs) = filePaths fs := by
  unfold filePaths chmodExec
  rw [List.map_map]
  refine List.map_congr_left (fun a _ => ?_)
  by_cases hap : a.1 = p
  · simp [hap]
  · simp [hap]

theorem fileStep_mem_of (root : Str) (e : Str × ContentGen) (fs : FS)
    {x : Str} (h : x ∈ filePaths fs) : x ∈ filePaths (fileStep root fs e) := by
  unfold fileStep
  have h1 : x ∈ filePaths (addDir (dirName (joinRel root e.1)) fs) := by
    rw [filePaths_addDir]
    exact h
  have h2 : x ∈ filePaths (writeFile (joinRel root e.1)
      (addDir (dirName (joinRel root e.1)) fs)) := by
    rw [writeFile_eq_touchFile]
    exact touchFile_mem_of _ _ _ h1
  by_cases hsh : shSuffix e.1 = true
  · rw [if_pos hsh, filePaths_chmod]
    exact h2
  · rw [if_neg hsh]
    exact h2

theorem createFiles_mem_of (root : Str) :
    ∀ (entries : List (Str × ContentGen)) (fs : FS) {x : Str},
      x ∈ filePaths fs → x ∈ filePaths (createFilesFS root entries fs)
  | [], _, _, h => h
  | e :: entries, fs, x, h => by
    rw [createFiles_cons]
    exact createFiles_mem_of root entries _ (fileStep_mem_of root e fs h)

theorem dirStep_paths_subset (root d : Str) (fs : FS) {q : Str}
    (h : q ∈ filePaths (dirStep root fs d)) :
    q ∈ filePaths fs ∨
      (d ≠ [] ∧ q = joinRel (joinRel root d) (pstr ".gitkeep")) := by
  unfold dirStep at h
  by_cases hd : d = []
  · rw [if_pos hd, filePaths_addDir] at h
    exact Or.inl h
  · rw [if_neg hd] at h
    rcases touchFile_paths_subset h with h | h
    · exact Or.inr ⟨hd, h⟩
    · rw [filePaths_addDir] at h
      exact Or.inl h

theorem createDirs_paths_subset (root : Str) :
    ∀ (l : List Str) (fs : FS) {q : Str},
      q ∈ filePaths (createDirectoryStructure root l fs) →
      q ∈ filePaths fs ∨
        ∃ d, d ∈ l ∧ d ≠ [] ∧ q = joinRel (joinRel root d) (pstr ".gitkeep")
  | [], _, _, h => Or.inl h
  | d :: l, fs, q, h => by
    rw [createDirs_cons] at h
    rcases createDirs_paths_subset root l _ h with h | ⟨d', hd', hne, hq⟩
    · rcases dirStep_paths_subset root d fs h with h | ⟨hne, hq⟩
      · exact Or.inl h
      · exact Or.inr ⟨d, List.mem_cons_self d l, hne, hq⟩
    · exact Or.inr ⟨d', List.mem_cons_of_mem d hd', hne, hq⟩

theorem fileStep_paths_subset (root : Str) (e : Str × ContentGen) (fs : FS)
    {q : Str} (h : q ∈ filePaths (fileStep root fs e)) :
    q ∈ filePaths fs ∨ q = joinRel root e.1 := by
  unfold fileStep at h
  by_cases hsh : shSuffix e.1 = true
  · rw [if_pos hsh, filePaths_chmod, writeFile_eq_touchFile] at h
    rcases touchFile_paths_subset h with h | h
    · exact Or.inr h
    · rw [filePaths_addDir] at h
      exact Or.inl h
  · rw [if_neg hsh, writeFile_eq_touchFile] at h
    rcases touchFile_paths_subset h with h | h
    · exact Or.inr h
    · rw [filePaths_addDir] at h
      exact Or.inl h

theorem createFiles_paths_subset (root : Str) :
    ∀ (entries : List (Str × ContentGen)) (fs : FS) {q : Str},
      q ∈ filePaths (createFilesFS root entries fs) →
      q ∈ filePaths fs ∨ ∃ e, e ∈ entries ∧ q = joinRel root e.1
  | [], _, _, h => Or.inl h
  | e :: entries, fs, q, h => by
    rw [createFiles_cons] at h
    rcases createFiles_paths_subset root entries _ h with h | ⟨e', he', hq⟩
    · rcases fileStep_paths_subset root e fs h with h | hq
      · exact Or.inl h
      · exact Or.inr ⟨e, List.mem_cons_self e entries, hq⟩
    · exact Or.inr ⟨e', List.mem_cons_of_mem e he', hq⟩

/-- C7: materialization creates a `.gitkeep` marker in every non-root
directory of the template's directory list (and never one directly in
the project root), and the files it writes carry the executable bit
(mode `0o755`) exactly when their path ends in `.sh`; `.gitkeep` markers
and all other files keep default permissions. -/
theorem materializer_gitkeep_and_permissions (k : TemplateKind)
    (envs : List Str) (root : Str) (fs0 : FS) (hfs : fs0.files = []) :
    (∀ d, d ∈ getDirectories k envs → d ≠ [] →
       joinRel (joinRel root d) (pstr ".gitkeep") ∈
         filePaths (createDirectoryStructure root (getDirectories k envs) fs0)) ∧
    (∀ entries, getFiles k = .ok entries →
       (∀ d, d ∈ getDirectories k envs → d ≠ [] →
          joinRel (joinRel root d) (pstr ".gitkeep") ∈
            filePaths (createFilesFS root entries
              (createDirectoryStructure root (getDirectories k envs) fs0))) ∧
       joinRel root (pstr ".gitkeep") ∉
         filePaths (createFilesFS root entries
           (createDirectoryStructure root (getDirectories k envs) fs0)) ∧
       (∀ p e, (p, e) ∈ (createFilesFS root entries
           (createDirectoryStructure root (getDirectories k envs) fs0)).files →
          (e = true ↔ shSuffix p = true))) := by
  have hkeep : ∀ d, d ∈ getDirectories k envs → d ≠ [] →
      joinRel (joinRel root d) (pstr ".gitkeep") ∈
        filePaths (createDirectoryStructure root (getDirectories k envs) fs0) := by
    intro d hd hne
    rcases (createDirs_establishes root (getDirectories k envs) fs0 d hd).2 with h | h
    · exact absurd h hne
    · exact h
  refine ⟨hkeep, ?_⟩
  intro entries hentries
  have hbasic : k = .basic ∧ entries = basicFileEntries := by
    cases k with
    | basic =>
      have hok : getFiles .basic = .ok basicFileEntries := rfl
      rw [hok] at hentries
      injection hentries with h
      exact ⟨rfl, h.symm⟩
    | microservice =>
      have hbad : getFiles .microservice =
          .error (attrErrMsg .microservice .k8sService) := rfl
      rw [hbad] at hentries
      exact Except.noConfusion hentries
    | webapp =>
      have hbad : getFiles .webapp = .error (attrErrMsg .webapp .packageJson) := rfl
      rw [hbad] at hentries
      exact Except.noConfusion hentries
    | library =>
      have hbad : getFiles .library = .error (attrErrMsg .library .setupPy) := rfl
      rw [hbad] at hentries
      exact Except.noConfusion hentries
  obtain ⟨hk, hent⟩ := hbasic
  subst hk
  subst hent
  refine ⟨?_, ?_, ?_⟩
  · intro d hd hne
    exact createFiles_mem_of root basicFileEntries _ (hkeep d hd hne)
  · intro hmem
    rcases createFiles_paths_subset root basicFileEntries _ hmem
      with hmem | ⟨e, he, hq⟩
    · rcases createDirs_paths_subset root (getDirectories .basic envs) fs0 hmem
        with hmem | ⟨d, _, hne, hq⟩
      · unfold filePaths at hmem
        rw [hfs] at hmem
        simp at hmem
      · exact gitkeep_root_ne_dir root d hne hq.symm
    · have hne : e.1 ≠ pstr ".gitkeep" := by
        have hall : basicFileEntries.all
            (fun x => decide (x.1 ≠ pstr ".gitkeep")) = true := by decide
        have := List.all_eq_true.mp hall e he
        simpa using this
      exact hne (joinRel_inj root hq.symm)
  · intro p e hpe
    have hinv0 : ExecInv fs0 := by
      intro p' e' hp'
      rw [hfs] at hp'
      cases hp'
    have hlen : ∀ e ∈ basicFileEntries, 3 ≤ e.1.length := by decide
    exact ExecInv_createFiles root basicFileEntries _
      (ExecInv_createDirs root (getDirectories .basic envs) fs0 hinv0) hlen p e hpe

/-- Witness for `materializer_gitkeep_and_permissions`: the basic
template with one environment, materialized under `/tmp/app` on an empty
filesystem; `config` gets its marker and the file map is the basic one. -/
theorem materializer_gitkeep_witness :
    (FS.mk [pstr "/tmp"] []).files = [] ∧
    pstr "config" ∈ getDirectories .basic [pstr "local"] ∧
    pstr "config" ≠ ([] : Str) ∧
    getFiles .basic = .ok basicFileEntries ∧
    joinRel (joinRel (pstr "/tmp/app") (pstr "config")) (pstr ".gitkeep") ∈
      filePaths (createFilesFS (pstr "/tmp/app") basicFileEntries
        (createDirectoryStructure (pstr "/tmp/app")
          (getDirectories .basic [pstr "local"]) (FS.mk [pstr "/tmp"] []))) :=
  ⟨rfl, by decide, by decide, rfl,
   (((materializer_gitkeep_and_permissions .basic [pstr "local"] (pstr "/tmp/app")
        (FS.mk [pstr "/tmp"] []) rfl).2 basicFileEntries rfl).1
     (pstr "config") (by decide) (by decide))⟩

/-! ## Lemmas about the orchestrator's rollback -/

theorem chmodExec_dirs (p : Str) (fs : FS) : (chmodExec p fs).dirs = fs.dirs := rfl

theorem writeFile_dirs (p : Str) (fs : FS) : (writeFile p fs).dirs = fs.dirs :=
  touchFile_dirs p fs

theorem applyStepFS_dirs (root : Str) (s : GitStep) (fs : FS) :
    (applyStepFS root s fs).dirs = fs.dirs := by
  cases s with
  | git c => rfl
  | protectionConfig => exact touchFile_dirs _ _
  | hooks =>
    show (chmodExec _ (writeFile _ (chmodExec _ (writeFile _ fs)))).dirs = fs.dirs
    rw [chmodExec_dirs, writeFile_dirs, chmodExec_dirs, writeFile_dirs]

theorem runGitFS_dirs :
    ∀ (steps : List GitStep) (o : Nat → CmdRes) (k : Nat) (root : Str)
      (st : GitState × FS),
      (∀ m fsE, (runGitFS steps o k root st).2 = .error (m, fsE) →
         fsE.dirs = st.2.dirs) ∧
      (∀ stF, (runGitFS steps o k root st).2 = .ok stF → stF.2.dirs = st.2.dirs)
  | [], o, k, root, st => by
    constructor
    · intro m fsE h
      exact Except.noConfusion h
    · intro stF h
      injection h with h
      rw [← h]
  | .git c :: rest, o, k, root, st => by
    by_cases h0 : (o k).code = 0
    · rw [runGitFS_git_ok h0]
      exact runGitFS_dirs rest o (k + 1) root (applyGit c st.1, st.2)
    · rw [runGitFS_git_fail h0]
      constructor
      · intro m fsE h
        injection h with h
        injection h with h1 h2
        rw [← h2]
      · intro stF h
        exact Except.noConfusion h
  | .protectionConfig :: rest, o, k, root, st => by
    rw [runGitFS_protection]
    have ih := runGitFS_dirs rest o k root
      (st.1, applyStepFS root .protectionConfig st.2)
    constructor
    · intro m fsE h
      rw [ih.1 m fsE h]
      exact applyStepFS_dirs root .protectionConfig st.2
    · intro stF h
      rw [ih.2 stF h]
      exact applyStepFS_dirs root .protectionConfig st.2
  | .hooks :: rest, o, k, root, st => by
    rw [runGitFS_hooks]
    have ih := runGitFS_dirs rest o k root (st.1, applyStepFS root .hooks st.2)
    constructor
    · intro m fsE h
      rw [ih.1 m fsE h]
      exact applyStepFS_dirs root .hooks st.2
    · intro stF h
      rw [ih.2 stF h]
      exact applyStepFS_dirs root .hooks st.2

theorem dirStep_dirs_mem_of (root : Str) (fs : FS) (d : Str) {x : Str}
    (h : x ∈ fs.dirs) : x ∈ (dirStep root fs d).dirs := by
  unfold dirStep
  by_cases hd : d = []
  · rw [if_pos hd]
    exact addDir_mem_of x _ fs h
  · rw [if_neg hd, touchFile_dirs]
    exact addDir_mem_of x _ fs h

theorem createDirs_dirs_mem_of (root : Str) :
    ∀ (l : List Str) (fs : FS) {x : Str}, x ∈ fs.dirs →
      x ∈ (createDirectoryStructure root l fs).dirs
  | [], _, _, h => h
  | d :: l, fs, x, h => by
    rw [createDirs_cons]
    exact createDirs_dirs_mem_of root l _ (dirStep_dirs_mem_of root fs d h)

theorem fileStep_dirs_mem_of (root : Str) (e : Str × ContentGen) (fs : FS)
    {x : Str} (h : x ∈ fs.dirs) : x ∈ (fileStep root fs e).dirs := by
  unfold fileStep
  by_cases hsh : shSuffix e.1 = true
  · rw [if_pos hsh, chmodExec_dirs, writeFile_dirs]
    exact addDir_mem_of x _ fs h
  · rw [if_neg hsh, writeFile_dirs]
    exact addDir_mem_of x _ fs h

theorem createFiles_dirs_mem_of (root : Str) :
    ∀ (entries : List (Str × ContentGen)) (fs : FS) {x : Str}, x ∈ fs.dirs →
      x ∈ (createFilesFS root entries fs).dirs
  | [], _, _, h => h
  | e :: entries, fs, x, h => by
    rw [createFiles_cons]
    exact createFiles_dirs_mem_of root entries _ (fileStep_dirs_mem_of root e fs h)

theorem joinRel_nil (root : Str) : joinRel root [] = root := rfl

theorem nil_mem_getDirectories (k : TemplateKind) (envs : List Str) :
    ([] : Str) ∈ getDirectories k envs := by
  have hb : ([] : Str) ∈ basicDirList envs := by
    unfold basicDirList
    exact List.mem_append_left _ (List.mem_append_left _ (List.mem_cons_self _ _))
  cases k with
  | basic => exact hb
  | microservice => exact List.mem_append_left _ hb
  | webapp => exact List.mem_append_left _ hb
  | library => exact List.mem_append_left _ hb

theorem createDirs_root_mem (k : TemplateKind) (envs : List Str) (root : Str)
    (fs : FS) :
    root ∈ (createDirectoryStructure root (getDirectories k envs) fs).dirs := by
  have h := (createDirs_establishes root (getDirectories k envs) fs []
    (nil_mem_getDirectories k envs)).1
  rwa [joinRel_nil] at h

theorem tryBody_error_root_mem (p : Params) (isNt : Bool) (ts : Str)
    (o : Nat → CmdRes) (fs : FS) (e : PyErr) (fs1 : FS)
    (h : tryBody p isNt ts o fs = .error (e, fs1)) :
    p.projectPath ∈ fs1.dirs := by
  unfold tryBody at h
  cases hgf : getFiles p.kind with
  | error m =>
    rw [hgf] at h
    dsimp only at h
    injection h with h
    injection h with h1 h2
    rw [← h2]
    exact createDirs_root_mem p.kind p.envs p.projectPath fs
  | ok entries =>
    rw [hgf] at h
    dsimp only at h
    cases hrun : (runGitFS (setupGitSteps p.envs isNt (commitMessage ts p.template p.envs))
        o 0 p.projectPath (gitState0,
          createFilesFS p.projectPath entries
            (createDirectoryStructure p.projectPath
              (getDirectories p.kind p.envs) fs))).2 with
    | error me =>
      rw [hrun] at h
      injection h with h
      injection h with h1 h2
      rw [← h2]
      have hd := (runGitFS_dirs _ o 0 p.projectPath _).1 me.1 me.2 (by rw [hrun])
      rw [hd]
      exact createFiles_dirs_mem_of p.projectPath entries _
        (createDirs_root_mem p.kind p.envs p.projectPath fs)
    | ok stF =>
      rw [hrun] at h
      exact Except.noConfusion h

theorem rmTree_not_exists (root q : Str) (fs : FS) (hq : underPath root q = true) :
    pathExists (rmTree root fs) q = false := by
  unfold pathExists rmTree filePaths
  apply Bool.or_eq_false_iff.mpr
  constructor
  · apply Bool.eq_false_iff.mpr
    intro hc
    have hm := List.mem_of_elem_eq_true hc
    have hm2 := (List.mem_filter.mp hm).2
    rw [hq] at hm2
    simp at hm2
  · apply Bool.eq_false_iff.mpr
    intro hc
    have hm := List.mem_of_elem_eq_true hc
    obtain ⟨f, hf, hfq⟩ := List.mem_map.mp hm
    have hm2 := (List.mem_filter.mp hf).2
    rw [hfq, hq] at hm2
    simp at hm2

/-- C3: if any step of the `try` block of `setup_project` raises after
directory creation has begun, the orchestrator deletes the project root
recursively (nothing at or under it still exists) and raises
`ProjectError('Project setup failed: ' + str(e))` wrapping the original
failure's message; on success no error is raised. -/
theorem setup_project_rollback_and_wrap (p : Params) (isNt : Bool) (ts : Str)
    (o : Nat → CmdRes) (fs : FS) :
    (∀ e fs1, tryBody p isNt ts o fs = .error (e, fs1) →
       setupProjectModel p isNt ts o fs =
         (.error (.projectErr (pstr "Project setup failed: " ++ errStr e)),
          rmTree p.projectPath fs1) ∧
       (∀ q, underPath p.projectPath q = true →
          pathExists (rmTree p.projectPath fs1) q = false)) ∧
    (∀ fs2, tryBody p isNt ts o fs = .ok fs2 →
       setupProjectModel p isNt ts o fs = (.ok (), fs2)) := by
  constructor
  · intro e fs1 htry
    have hmem : p.projectPath ∈ fs1.dirs :=
      tryBody_error_root_mem p isNt ts o fs e fs1 htry
    have hex : pathExists fs1 p.projectPath = true := by
      unfold pathExists
      have hc : fs1.dirs.contains p.projectPath = true :=
        List.elem_eq_true_of_mem hmem
      rw [hc]
      rfl
    constructor
    · unfold setupProjectModel
      rw [htry]
      dsimp only
      rw [hex]
      rfl
    · intro q hq
      exact rmTree_not_exists p.projectPath q fs1 hq
  · intro fs2 htry
    unfold setupProjectModel
    rw [htry]

set_option maxRecDepth 4000 in
/-- Witness for `setup_project_rollback_and_wrap`: a microservice
request, whose file-map evaluation raises `AttributeError` after the
directory tree was created; setup fails with the wrapping `ProjectError`
and the rolled-back tree. -/
theorem setup_project_rollback_witness :
    tryBody
        { name := pstr "app", basePath := pstr "/tmp",
          projectPath := pstr "/tmp/app", envs := [pstr "local"],
          template := pstr "microservice", kind := .microservice }
        false [] allOk (FS.mk [pstr "/tmp"] []) =
      .error (.attrErr (attrErrMsg .microservice .k8sService),
        createDirectoryStructure (pstr "/tmp/app")
          (getDirectories .microservice [pstr "local"]) (FS.mk [pstr "/tmp"] [])) ∧
    setupProjectModel
        { name := pstr "app", basePath := pstr "/tmp",
          projectPath := pstr "/tmp/app", envs := [pstr "local"],
          template := pstr "microservice", kind := .microservice }
        false [] allOk (FS.mk [pstr "/tmp"] []) =
      (.error (.projectErr (pstr "Project setup failed: "
          ++ errStr (.attrErr (attrErrMsg .microservice .k8sService)))),
       rmTree (pstr "/tmp/app")
         (createDirectoryStructure (pstr "/tmp/app")
           (getDirectories .microservice [pstr "local"]) (FS.mk [pstr "/tmp"] []))) :=
  ⟨by decide,
   ((setup_project_rollback_and_wrap
       { name := pstr "app", basePath := pstr "/tmp",
         projectPath := pstr "/tmp/app", envs := [pstr "local"],
         template := pstr "microservice", kind := .microservice }
       false [] allOk (FS.mk [pstr "/tmp"] [])).1
     (.attrErr (attrErrMsg .microservice .k8sService))
     (createDirectoryStructure (pstr "/tmp/app")
       (getDirectories .microservice [pstr "local"]) (FS.mk [pstr "/tmp"] []))
     (by decide)).1⟩

/-! ## Validation failures (`__init__` raises before any mutation) -/

/-- C5: a raw name whose sanitized form is empty or fails the
`^[a-z][a-z0-9-_]*$` check makes the run fail with a `ValidationError`,
and the filesystem is returned exactly as it was: validation happens in
`__init__`, before any mutation. -/
theorem validation_rejects_bad_name (rawName basePath : Str)
    (envsArg : List Str) (template : Str) (gitAvailable isNt : Bool)
    (ts : Str) (o : Nat → CmdRes) (fs : FS)
    (h : sanitizeName rawName = [] ∨ pyIdentMatch (sanitizeName rawName) = false) :
    validationFailed
        (tjlRun rawName basePath envsArg template gitAvailable isNt ts o fs) = true ∧
    (tjlRun rawName basePath envsArg template gitAvailable isNt ts o fs).2 = fs := by
  unfold tjlRun initProjectSetup
  cases htm : templateOf template with
  | none => exact ⟨rfl, rfl⟩
  | some kind =>
    dsimp only
    by_cases hn : sanitizeName rawName = []
    · rw [if_pos hn]
      exact ⟨rfl, rfl⟩
    · have hm : pyIdentMatch (sanitizeName rawName) = false := by
        rcases h with h | h
        · exact absurd h hn
        · exact h
      rw [if_neg hn, if_pos (by simp [hm])]
      exact ⟨rfl, rfl⟩

/-- Witness for `validation_rejects_bad_name`: the raw name `123`
sanitizes to `123`, which starts with a digit and is rejected with no
filesystem change. -/
theorem validation_rejects_bad_name_witness :
    (sanitizeName (pstr "123") = [] ∨
      pyIdentMatch (sanitizeName (pstr "123")) = false) ∧
    validationFailed (tjlRun (pstr "123") (pstr "/tmp") [] (pstr "basic")
        true false [] allOk (FS.mk [pstr "/tmp"] [])) = true ∧
    (tjlRun (pstr "123") (pstr "/tmp") [] (pstr "basic")
        true false [] allOk (FS.mk [pstr "/tmp"] [])).2 = FS.mk [pstr "/tmp"] [] :=
  ⟨Or.inr (by decide),
   (validation_rejects_bad_name (pstr "123") (pstr "/tmp") [] (pstr "basic")
      true false [] allOk (FS.mk [pstr "/tmp"] []) (Or.inr (by decide))).1,
   (validation_rejects_bad_name (pstr "123") (pstr "/tmp") [] (pstr "basic")
      true false [] allOk (FS.mk [pstr "/tmp"] []) (Or.inr (by decide))).2⟩

/-- C6: if the target path `basePath/sanitizedName` already exists, the
run fails with a `ValidationError` (whichever validation check fires
first, the target-exists check at the latest) and the filesystem is
returned unchanged. -/
theorem existing_target_rejected (rawName basePath : Str)
    (envsArg : List Str) (template : Str) (gitAvailable isNt : Bool)
    (ts : Str) (o : Nat → CmdRes) (fs : FS)
    (h : pathExists fs (joinRel basePath (sanitizeName rawName)) = true) :
    validationFailed
        (tjlRun rawName basePath envsArg template gitAvailable isNt ts o fs) = true ∧
    (tjlRun rawName basePath envsArg template gitAvailable isNt ts o fs).2 = fs := by
  unfold tjlRun initProjectSetup
  cases htm : templateOf template with
  | none => exact ⟨rfl, rfl⟩
  | some kind =>
    dsimp only
    by_cases hn : sanitizeName rawName = []
    · rw [if_pos hn]
      exact ⟨rfl, rfl⟩
    · rw [if_neg hn]
      by_cases hm : pyIdentMatch (sanitizeName rawName) = true
      · rw [if_neg (by simp [hm])]
        by_cases hb : pathExists fs basePath = true
        · rw [if_neg (by simp [hb]), if_pos h]
          exact ⟨rfl, rfl⟩
        · rw [if_pos (by simp [hb])]
          exact ⟨rfl, rfl⟩
      · rw [if_pos (by simp [hm])]
        exact ⟨rfl, rfl⟩

/-- Witness for `existing_target_rejected`: the target `/tmp/app`
already exists; the run is rejected with no filesystem change. -/
theorem existing_target_rejected_witness :
    pathExists (FS.mk [pstr "/tmp", pstr "/tmp/app"] [])
        (joinRel (pstr "/tmp") (sanitizeName (pstr "app"))) = true ∧
    validationFailed (tjlRun (pstr "app") (pstr "/tmp") [] (pstr "basic")
        true false [] allOk (FS.mk [pstr "/tmp", pstr "/tmp/app"] [])) = true ∧
    (tjlRun (pstr "app") (pstr "/tmp") [] (pstr "basic")
        true false [] allOk (FS.mk [pstr "/tmp", pstr "/tmp/app"] [])).2 =
      FS.mk [pstr "/tmp", pstr "/tmp/app"] [] :=
  ⟨by decide,
   (existing_target_rejected (pstr "app") (pstr "/tmp") [] (pstr "basic")
      true false [] allOk (FS.mk [pstr "/tmp", pstr "/tmp/app"] [])
      (by decide)).1,
   (existing_target_rejected (pstr "app") (pstr "/tmp") [] (pstr "basic")
      true false [] allOk (FS.mk [pstr "/tmp", pstr "/tmp/app"] [])
      (by decide)).2⟩

end TJLProject
